import Mathlib

/-!
Verification of the HYDRONAV hazard-aware routing engine.

Shallow embedding of the core routing/geometry code:
  * `src/utils/geo.ts` — geometry kernel (point-in-polygon, bounding boxes,
    hazard scoring, detour waypoint generation, location smoothing);
  * `src/services/mapService.ts` — route provider client and the
    multi-candidate route evaluator/selector;
  * `src/App.tsx` — boundary coordinate validation, breadcrumb trail
    updates, and the reroute re-entrancy gate.

Modelling conventions:
  * JavaScript numbers that carry geometry are embedded as `ℚ` (the code
    performs only field operations and comparisons on them; IEEE-754
    rounding is outside the scope of these claims).
  * Values that may be `NaN`/`±Infinity` at the untrusted boundaries, and
    results of `Math.min`/`Math.max` over possibly-empty arrays, are
    embedded as the extended type `JsNum` with JavaScript comparison
    semantics.
  * Network calls are uninterpreted: a provider is a function from the
    request waypoint list to an optional response; timeouts, network
    errors, bad statuses and malformed bodies all collapse into the
    failing outcome.
  * `Math.sqrt` (used only to compute detour waypoint positions, which the
    routing logic never inspects — they are merely forwarded to the
    provider) is an uninterpreted function parameter `sqrtFn`.
-/

/-- `{lat, lng}` in decimal degrees (src/unnamed/part_000, `Coordinate`). -/
structure Coordinate where
  lat : ℚ
  lng : ℚ
deriving DecidableEq, Repr

/-- A JavaScript number as seen at untrusted boundaries and in
`Math.min`/`Math.max` folds: `NaN`, `±Infinity`, or a finite value. -/
inductive JsNum where
  | nan : JsNum
  | posinf : JsNum
  | neginf : JsNum
  | fin (q : ℚ) : JsNum
deriving DecidableEq, Repr

namespace JsNum

/-- JavaScript `isNaN`. -/
def isNaNb : JsNum → Bool
  | .nan => true
  | _ => false

/-- JavaScript `isFinite`. -/
def isFiniteb : JsNum → Bool
  | .fin _ => true
  | _ => false

/-- JavaScript `<` (any comparison with `NaN` is false). -/
def ltb : JsNum → JsNum → Bool
  | .fin a, .fin b => a < b
  | .fin _, .posinf => true
  | .neginf, .fin _ => true
  | .neginf, .posinf => true
  | _, _ => false

/-- JavaScript `<=` (any comparison with `NaN` is false). -/
def leb : JsNum → JsNum → Bool
  | .fin a, .fin b => a ≤ b
  | .fin _, .posinf => true
  | .neginf, _ => true
  | .posinf, .posinf => true
  | _, _ => false

/-- Subtract a finite value (`∞ - m = ∞`, `-∞ - m = -∞`, `NaN - m = NaN`). -/
def subQ : JsNum → ℚ → JsNum
  | .fin a, m => .fin (a - m)
  | x, _ => x

/-- Add a finite value. -/
def addQ : JsNum → ℚ → JsNum
  | .fin a, m => .fin (a + m)
  | x, _ => x

/-- Extract the finite value; the default `0` is reached only on
non-finite inputs, which every verified code path excludes first. -/
def toQ : JsNum → ℚ
  | .fin a => a
  | _ => 0

end JsNum

/-- `Math.min(...l)`: fold of binary `Math.min`, `+∞` on the empty array. -/
def jsMin (l : List ℚ) : JsNum :=
  l.foldl (fun acc x => if JsNum.ltb (.fin x) acc then .fin x else acc) .posinf

/-- `Math.max(...l)`: fold of binary `Math.max`, `-∞` on the empty array. -/
def jsMax (l : List ℚ) : JsNum :=
  l.foldl (fun acc x => if JsNum.ltb acc (.fin x) then .fin x else acc) .neginf

lemma jsMin_nil : jsMin [] = .posinf := rfl

lemma jsMax_nil : jsMax [] = .neginf := rfl

private lemma jsMin_aux (l : List ℚ) (a : ℚ) :
    ∃ m, (l.foldl (fun acc x => if JsNum.ltb (.fin x) acc then .fin x else acc)
      (.fin a)) = .fin m ∧ (m = a ∨ m ∈ l) ∧ m ≤ a ∧ ∀ x ∈ l, m ≤ x := by
  induction l generalizing a with
  | nil => exact ⟨a, rfl, Or.inl rfl, le_refl a, by simp⟩
  | cons y ys ih =>
    simp only [List.foldl_cons, JsNum.ltb]
    by_cases hy : y < a
    · simp only [decide_eq_true_eq, hy, if_pos]
      obtain ⟨m, hm, hmem, hle, hall⟩ := ih y
      refine ⟨m, hm, ?_, le_trans hle hy.le, ?_⟩
      · rcases hmem with h | h
        · exact Or.inr (by simp [h])
        · exact Or.inr (by simp [h])
      · intro x hx
        rcases List.mem_cons.mp hx with h | h
        · exact h ▸ hle
        · exact hall x h
    · simp only [decide_eq_true_eq, hy, if_neg, if_false]
      obtain ⟨m, hm, hmem, hle, hall⟩ := ih a
      refine ⟨m, hm, ?_, hle, ?_⟩
      · rcases hmem with h | h
        · exact Or.inl h
        · exact Or.inr (by simp [h])
      · intro x hx
        rcases List.mem_cons.mp hx with h | h
        · exact h ▸ le_trans hle (not_lt.mp hy)
        · exact hall x h

/-- On a nonempty list, `jsMin` is a finite member below every element. -/
lemma jsMin_spec (l : List ℚ) (hne : l ≠ []) :
    ∃ m, jsMin l = .fin m ∧ m ∈ l ∧ ∀ x ∈ l, m ≤ x := by
  match l, hne with
  | y :: ys, _ =>
    have : jsMin (y :: ys) =
        ys.foldl (fun acc x => if JsNum.ltb (.fin x) acc then .fin x else acc) (.fin y) := by
      simp [jsMin, JsNum.ltb]
    obtain ⟨m, hm, hmem, hle, hall⟩ := jsMin_aux ys y
    refine ⟨m, this ▸ hm, ?_, ?_⟩
    · rcases hmem with h | h
      · simp [h]
      · exact List.mem_cons_of_mem _ h
    · intro x hx
      rcases List.mem_cons.mp hx with h | h
      · exact h ▸ hle
      · exact hall x h

private lemma jsMax_aux (l : List ℚ) (a : ℚ) :
    ∃ m, (l.foldl (fun acc x => if JsNum.ltb acc (.fin x) then .fin x else acc)
      (.fin a)) = .fin m ∧ (m = a ∨ m ∈ l) ∧ a ≤ m ∧ ∀ x ∈ l, x ≤ m := by
  induction l generalizing a with
  | nil => exact ⟨a, rfl, Or.inl rfl, le_refl a, by simp⟩
  | cons y ys ih =>
    simp only [List.foldl_cons, JsNum.ltb]
    by_cases hy : a < y
    · simp only [decide_eq_true_eq, hy, if_pos]
      obtain ⟨m, hm, hmem, hle, hall⟩ := ih y
      refine ⟨m, hm, ?_, le_trans hy.le hle, ?_⟩
      · rcases hmem with h | h
        · exact Or.inr (by simp [h])
        · exact Or.inr (by simp [h])
      · intro x hx
        rcases List.mem_cons.mp hx with h | h
        · exact h ▸ hle
        · exact hall x h
    · simp only [decide_eq_true_eq, hy, if_neg, if_false]
      obtain ⟨m, hm, hmem, hle, hall⟩ := ih a
      refine ⟨m, hm, ?_, hle, ?_⟩
      · rcases hmem with h | h
        · exact Or.inl h
        · exact Or.inr (by simp [h])
      · intro x hx
        rcases List.mem_cons.mp hx with h | h
        · exact h ▸ le_trans (not_lt.mp hy) hle
        · exact hall x h

/-- On a nonempty list, `jsMax` is a finite member above every element. -/
lemma jsMax_spec (l : List ℚ) (hne : l ≠ []) :
    ∃ m, jsMax l = .fin m ∧ m ∈ l ∧ ∀ x ∈ l, x ≤ m := by
  match l, hne with
  | y :: ys, _ =>
    have : jsMax (y :: ys) =
        ys.foldl (fun acc x => if JsNum.ltb acc (.fin x) then .fin x else acc) (.fin y) := by
      simp [jsMax, JsNum.ltb]
    obtain ⟨m, hm, hmem, hle, hall⟩ := jsMax_aux ys y
    refine ⟨m, this ▸ hm, ?_, ?_⟩
    · rcases hmem with h | h
      · simp [h]
      · exact List.mem_cons_of_mem _ h
    · intro x hx
      rcases List.mem_cons.mp hx with h | h
      · exact h ▸ hle
      · exact hall x h

/-- One iteration of the ray-casting loop body: does the polygon edge from
`vi` (index `i`) to `vj` (index `j = i-1 mod n`) toggle the `inside` bit
for the query point `(x, y) = (lng, lat)`?  Mirrors the `intersect`
expression of `isPointInPolygon` (src/unnamed/part_002:70-71). -/
def edgeFlip (x y : ℚ) (vi vj : Coordinate) : Bool :=
  (decide (vi.lat > y) != decide (vj.lat > y)) &&
    decide (x < (vj.lng - vi.lng) * (y - vi.lat) / (vj.lat - vi.lat) + vi.lng)

/-- Even-odd ray-casting point-in-polygon test
(src/unnamed/part_002:63-75, `isPointInPolygon`).  The JS `for` loop over
`i` with `j = i-1 mod n` is embedded as a fold over `List.range`. -/
def isPointInPolygon (point : Coordinate) (vs : List Coordinate) : Bool :=
  let x := point.lng
  let y := point.lat
  (List.range vs.length).foldl
    (fun inside i =>
      let vi := vs.getD i ⟨0, 0⟩
      let vj := vs.getD (if i = 0 then vs.length - 1 else i - 1) ⟨0, 0⟩
      if edgeFlip x y vi vj then !inside else inside)
    false

/-- The cyclic edge list `[(v_0, v_{n-1}), (v_1, v_0), …, (v_{n-1}, v_{n-2})]`
traversed by the ray-casting loop. -/
def cycleEdges (vs : List Coordinate) : List (Coordinate × Coordinate) :=
  match vs with
  | [] => []
  | v :: _ => vs.zip (vs.getLastD v :: vs.dropLast)

lemma length_cycleEdges (vs : List Coordinate) :
    (cycleEdges vs).length = vs.length := by
  match vs with
  | [] => rfl
  | v :: rest =>
    simp only [cycleEdges, List.length_zip, List.length_cons, List.length_dropLast,
      List.length_cons]
    omega

lemma getElem_cycleEdges (vs : List Coordinate) (i : ℕ) (h : i < (cycleEdges vs).length) :
    (cycleEdges vs)[i] =
      (vs.getD i ⟨0, 0⟩, vs.getD (if i = 0 then vs.length - 1 else i - 1) ⟨0, 0⟩) := by
  cases vs with
  | nil => simp [cycleEdges] at h
  | cons v rest =>
    have hlen : i < (v :: rest).length := by
      rw [length_cycleEdges] at h; exact h
    have hc : cycleEdges (v :: rest) =
        (v :: rest).zip ((v :: rest).getLastD v :: (v :: rest).dropLast) := rfl
    rw [List.getElem_of_eq hc, List.getElem_zip]
    cases i with
    | zero =>
      rw [if_pos rfl]
      have e1 : (v :: rest).getD 0 ⟨0, 0⟩ = (v :: rest)[0] :=
        List.getD_eq_getElem _ _ hlen
      have e2 : (v :: rest).getD ((v :: rest).length - 1) ⟨0, 0⟩ =
          (v :: rest).getLastD v := by
        rw [List.getD_eq_getElem _ _ (by simp),
          List.getLastD_eq_getLast?, List.getLast?_eq_getLast _ (by simp),
          Option.getD_some, List.getLast_eq_getElem]
      rw [e1, e2]
      rfl
    | succ k =>
      rw [if_neg (Nat.succ_ne_zero k)]
      have hk : k < rest.length := by
        simp only [List.length_cons] at hlen; omega
      have e1 : (v :: rest).getD (k + 1) ⟨0, 0⟩ = (v :: rest)[k + 1] :=
        List.getD_eq_getElem _ _ hlen
      have e2 : (v :: rest).getD (k + 1 - 1) ⟨0, 0⟩ = (v :: rest)[k] := by
        have hkk : k + 1 - 1 = k := rfl
        rw [hkk, List.getD_eq_getElem _ _ (by simp; omega)]
      rw [e1, e2]
      have hd : k < ((v :: rest).dropLast).length := by
        rw [List.length_dropLast]; simp only [List.length_cons]; omega
      have hk1 : k + 1 < ((v :: rest).getLastD v :: (v :: rest).dropLast).length := by
        simp only [List.length_cons, List.length_dropLast]
        omega
      have e3 : ((v :: rest).getLastD v :: (v :: rest).dropLast)[k + 1] =
          (v :: rest)[k] := by
        rw [List.getElem_cons_succ, List.getElem_dropLast]
      rw [e3]

/-- The ray-casting fold over indices equals a fold over the cyclic edge
list. -/
lemma isPointInPolygon_eq_foldEdges (p : Coordinate) (vs : List Coordinate) :
    isPointInPolygon p vs =
      (cycleEdges vs).foldl
        (fun inside e => if edgeFlip p.lng p.lat e.1 e.2 then !inside else inside)
        false := by
  have hmap : (List.range vs.length).map
      (fun i => (vs.getD i ⟨0, 0⟩, vs.getD (if i = 0 then vs.length - 1 else i - 1) ⟨0, 0⟩)) =
      cycleEdges vs := by
    refine List.ext_getElem ?_ ?_
    · simp [length_cycleEdges]
    · intro n h₁ h₂
      rw [List.getElem_map, List.getElem_range, getElem_cycleEdges]
  calc isPointInPolygon p vs
      = (List.range vs.length).foldl
          (fun inside i =>
            if edgeFlip p.lng p.lat (vs.getD i ⟨0, 0⟩)
                (vs.getD (if i = 0 then vs.length - 1 else i - 1) ⟨0, 0⟩)
              then !inside else inside) false := rfl
    _ = ((List.range vs.length).map
          (fun i => (vs.getD i ⟨0, 0⟩,
            vs.getD (if i = 0 then vs.length - 1 else i - 1) ⟨0, 0⟩))).foldl
          (fun inside e => if edgeFlip p.lng p.lat e.1 e.2 then !inside else inside)
          false := by
        rw [List.foldl_map]
    _ = _ := by rw [hmap]

lemma edgeFlip_false_of_same (x y : ℚ) (vi vj : Coordinate)
    (h : decide (vi.lat > y) = decide (vj.lat > y)) :
    edgeFlip x y vi vj = false := by
  simp [edgeFlip, h]

/-- When a polygon edge crosses the horizontal line through `y`, the
`x`-coordinate of the crossing lies between the edge endpoints. -/
lemma edge_xint_bounds (x y : ℚ) (vi vj : Coordinate)
    (h : decide (vi.lat > y) ≠ decide (vj.lat > y)) :
    min vi.lng vj.lng ≤ (vj.lng - vi.lng) * (y - vi.lat) / (vj.lat - vi.lat) + vi.lng ∧
      (vj.lng - vi.lng) * (y - vi.lat) / (vj.lat - vi.lat) + vi.lng ≤ max vi.lng vj.lng := by
  have hcross : (vi.lat > y ∧ ¬ vj.lat > y) ∨ (¬ vi.lat > y ∧ vj.lat > y) := by
    by_cases hyi : vi.lat > y <;> by_cases hyj : vj.lat > y <;>
      simp [hyi, hyj] at h ⊢
  set xi := vi.lng with hxi
  set yi := vi.lat with hyi
  set xj := vj.lng with hxj
  set yj := vj.lat with hyj
  set t := (y - yi) / (yj - yi) with ht
  have hexpr : (xj - xi) * (y - yi) / (yj - yi) + xi = xi + (xj - xi) * t := by
    rw [ht, mul_div_assoc]; ring
  have ht01 : 0 ≤ t ∧ t ≤ 1 := by
    rcases hcross with ⟨h1, h2⟩ | ⟨h1, h2⟩
    · have hden : yj - yi < 0 := by
        push_neg at h2; linarith
      constructor
      · rw [ht, div_nonneg_iff]
        right
        constructor <;> [linarith; linarith]
      · rw [ht, div_le_one_iff]
        right; right
        push_neg at h2
        exact ⟨hden, by linarith⟩
    · have hden : 0 < yj - yi := by
        push_neg at h1; linarith
      constructor
      · rw [ht]
        apply div_nonneg (by push_neg at h1; linarith) hden.le
      · rw [ht, div_le_one hden]
        linarith
  obtain ⟨ht0, ht1⟩ := ht01
  rw [hexpr]
  constructor
  · rcases le_total xi xj with hij | hij
    · refine le_trans (min_le_left _ _) ?_
      nlinarith [mul_nonneg ht0 (sub_nonneg.mpr hij)]
    · refine le_trans (min_le_right _ _) ?_
      nlinarith [mul_nonneg (by linarith : (0:ℚ) ≤ 1 - t) (by linarith : (0:ℚ) ≤ xi - xj)]
  · rcases le_total xi xj with hij | hij
    · refine le_trans ?_ (le_max_right _ _)
      nlinarith [mul_nonneg (by linarith : (0:ℚ) ≤ 1 - t) (by linarith : (0:ℚ) ≤ xj - xi)]
    · refine le_trans ?_ (le_max_left _ _)
      nlinarith [mul_nonneg ht0 (sub_nonneg.mpr (by linarith : xj ≤ xi))]

/-- A query point strictly to the right of both edge endpoints is never
counted as crossing. -/
lemma edgeFlip_false_of_right (x y : ℚ) (vi vj : Coordinate)
    (hxi : vi.lng < x) (hxj : vj.lng < x) :
    edgeFlip x y vi vj = false := by
  by_cases h : decide (vi.lat > y) = decide (vj.lat > y)
  · exact edgeFlip_false_of_same x y vi vj h
  · obtain ⟨-, hub⟩ := edge_xint_bounds x y vi vj h
    have hnlt : ¬ x < (vj.lng - vi.lng) * (y - vi.lat) / (vj.lat - vi.lat) + vi.lng :=
      not_lt.mpr (le_trans hub (max_lt hxi hxj).le)
    simp [edgeFlip, hnlt]

/-- For a query point strictly to the left of both edge endpoints the
crossing test reduces to the latitude-sign comparison. -/
lemma edgeFlip_eq_cross_of_left (x y : ℚ) (vi vj : Coordinate)
    (hxi : x < vi.lng) (hxj : x < vj.lng) :
    edgeFlip x y vi vj = (decide (vi.lat > y) != decide (vj.lat > y)) := by
  by_cases h : decide (vi.lat > y) = decide (vj.lat > y)
  · simp [edgeFlip, h]
  · obtain ⟨hlb, -⟩ := edge_xint_bounds x y vi vj h
    have hlt : x < (vj.lng - vi.lng) * (y - vi.lat) / (vj.lat - vi.lat) + vi.lng :=
      lt_of_lt_of_le (lt_min hxi hxj) hlb
    simp [edgeFlip, hlt, h]

lemma foldFlip_const {α : Type} (L : List α) (g : α → Bool) (b : Bool)
    (h : ∀ e ∈ L, g e = false) :
    L.foldl (fun inside e => if g e then !inside else inside) b = b := by
  induction L generalizing b with
  | nil => rfl
  | cons e es ih =>
    simp only [List.foldl_cons, h e (List.mem_cons_self e es)]
    exact ih b (fun e he => h e (List.mem_cons_of_mem _ he))

lemma foldFlip_congr {α : Type} (L : List α) (g₁ g₂ : α → Bool) (b : Bool)
    (h : ∀ e ∈ L, g₁ e = g₂ e) :
    L.foldl (fun inside e => if g₁ e then !inside else inside) b =
      L.foldl (fun inside e => if g₂ e then !inside else inside) b := by
  induction L generalizing b with
  | nil => rfl
  | cons e es ih =>
    simp only [List.foldl_cons, h e (List.mem_cons_self e es)]
    exact ih _ (fun e he => h e (List.mem_cons_of_mem _ he))

lemma mem_cycleEdges (vs : List Coordinate) (e : Coordinate × Coordinate)
    (he : e ∈ cycleEdges vs) : e.1 ∈ vs ∧ e.2 ∈ vs := by
  cases vs with
  | nil => simp [cycleEdges] at he
  | cons v rest =>
    have he2 : (e.1, e.2) ∈
        (v :: rest).zip ((v :: rest).getLastD v :: (v :: rest).dropLast) := by
      rw [Prod.mk.eta]; exact he
    obtain ⟨h1, h2⟩ := List.of_mem_zip he2
    refine ⟨h1, ?_⟩
    rcases List.mem_cons.mp h2 with h | h
    · rw [h, List.getLastD_eq_getLast?, List.getLast?_eq_getLast _ (by simp),
        Option.getD_some]
      exact List.getLast_mem _
    · exact (List.dropLast_prefix (v :: rest)).subset h

/-- Parity of latitude-sign crossings around a closed polygon: traversing
the full cycle of edges toggles the `inside` bit an even number of times,
so a fold of pure sign-crossing toggles is the identity. -/
lemma foldFlip_cross_cycle (y : ℚ) (vs : List Coordinate) (a : Bool) :
    (cycleEdges vs).foldl
      (fun inside e =>
        if (decide (e.1.lat > y) != decide (e.2.lat > y)) then !inside else inside)
      a = a := by
  have haux : ∀ (l : List Coordinate) (prev : Coordinate) (a : Bool),
      (l.zip (prev :: l.dropLast)).foldl
        (fun inside e =>
          if (decide (e.1.lat > y) != decide (e.2.lat > y)) then !inside else inside)
        a =
      (if (decide ((l.getLastD prev).lat > y) != decide (prev.lat > y)) then !a else a) := by
    intro l
    induction l with
    | nil => intro prev a; simp
    | cons v rest ih =>
      intro prev a
      cases rest with
      | nil => simp [List.getLastD]
      | cons r rs =>
        have hdrop : (v :: r :: rs).dropLast = v :: (r :: rs).dropLast := rfl
        rw [hdrop]
        have hzip : (v :: r :: rs).zip (prev :: v :: (r :: rs).dropLast) =
            (v, prev) :: (r :: rs).zip (v :: (r :: rs).dropLast) := rfl
        rw [hzip, List.foldl_cons, ih v _]
        have hlast : (v :: r :: rs).getLastD prev = (r :: rs).getLastD v := by
          rw [List.getLastD_cons, List.getLastD_cons]
        rw [hlast]
        generalize decide (v.lat > y) = cv
        generalize decide (prev.lat > y) = cp
        generalize decide (((r :: rs).getLastD v).lat > y) = cl
        cases cv <;> cases cp <;> cases cl <;> simp
  cases vs with
  | nil => rfl
  | cons v rest =>
    have hc : cycleEdges (v :: rest) =
        (v :: rest).zip ((v :: rest).getLastD v :: (v :: rest).dropLast) := rfl
    rw [hc, haux (v :: rest) ((v :: rest).getLastD v) a]
    have hsome : (v :: rest).getLast? = some ((v :: rest).getLast (by simp)) :=
      List.getLast?_eq_getLast _ (by simp)
    rw [List.getLastD_eq_getLast?, List.getLastD_eq_getLast?, hsome]
    simp

/-- A point whose latitude sign relative to every vertex is constant
(strictly above or strictly below the whole polygon) is never inside. -/
lemma isPointInPolygon_false_of_lat_const (p : Coordinate) (vs : List Coordinate) (c : Bool)
    (hall : ∀ v ∈ vs, decide (v.lat > p.lat) = c) :
    isPointInPolygon p vs = false := by
  rw [isPointInPolygon_eq_foldEdges]
  exact foldFlip_const _ _ _ (fun e he => by
    obtain ⟨h1, h2⟩ := mem_cycleEdges vs e he
    exact edgeFlip_false_of_same _ _ _ _ ((hall e.1 h1).trans (hall e.2 h2).symm))

/-- A point strictly to the right of every vertex is never inside. -/
lemma isPointInPolygon_false_of_right (p : Coordinate) (vs : List Coordinate)
    (hall : ∀ v ∈ vs, v.lng < p.lng) :
    isPointInPolygon p vs = false := by
  rw [isPointInPolygon_eq_foldEdges]
  exact foldFlip_const _ _ _ (fun e he => by
    obtain ⟨h1, h2⟩ := mem_cycleEdges vs e he
    exact edgeFlip_false_of_right _ _ _ _ (hall e.1 h1) (hall e.2 h2))

/-- A point strictly to the left of every vertex is never inside: every
edge crossing on its horizontal ray is counted, and a closed polygon is
crossed an even number of times. -/
lemma isPointInPolygon_false_of_left (p : Coordinate) (vs : List Coordinate)
    (hall : ∀ v ∈ vs, p.lng < v.lng) :
    isPointInPolygon p vs = false := by
  rw [isPointInPolygon_eq_foldEdges]
  rw [foldFlip_congr _ _
      (fun e => (decide (e.1.lat > p.lat) != decide (e.2.lat > p.lat))) _
      (fun e he => by
        obtain ⟨h1, h2⟩ := mem_cycleEdges vs e he
        exact edgeFlip_eq_cross_of_left _ _ _ _ (hall e.1 h1) (hall e.2 h2))]
  exact foldFlip_cross_cycle p.lat vs false

/-- An inside point lies inside the closed bounding box of the polygon
(and the polygon is nonempty). -/
lemma isPointInPolygon_bbox (p : Coordinate) (vs : List Coordinate)
    (h : isPointInPolygon p vs = true) :
    (∃ vup ∈ vs, p.lat < vup.lat) ∧ (∃ vdn ∈ vs, vdn.lat ≤ p.lat) ∧
      (∃ vr ∈ vs, p.lng ≤ vr.lng) ∧ (∃ vl ∈ vs, vl.lng ≤ p.lng) := by
  refine ⟨?_, ?_, ?_, ?_⟩
  · by_contra hno
    push_neg at hno
    have := isPointInPolygon_false_of_lat_const p vs false
      (fun v hv => by simp [not_lt.mp (fun hlt => absurd hlt (not_lt.mpr (hno v hv)))])
    rw [this] at h
    exact Bool.false_ne_true h
  · by_contra hno
    push_neg at hno
    have := isPointInPolygon_false_of_lat_const p vs true
      (fun v hv => by simp [hno v hv])
    rw [this] at h
    exact Bool.false_ne_true h
  · by_contra hno
    push_neg at hno
    have := isPointInPolygon_false_of_right p vs (fun v hv => hno v hv)
    rw [this] at h
    exact Bool.false_ne_true h
  · by_contra hno
    push_neg at hno
    have := isPointInPolygon_false_of_left p vs (fun v hv => hno v hv)
    rw [this] at h
    exact Bool.false_ne_true h

/-- FloodZone kind (src/unnamed/part_000, `FloodZone.type`). -/
inductive ZoneKind where
  | manual_polygon : ZoneKind
  | geocoded_area : ZoneKind
  | circular_risk : ZoneKind
deriving DecidableEq, Repr

/-- A hazard zone (src/unnamed/part_000, `FloodZone`). -/
structure FloodZone where
  id : String
  name : String
  polygon : List Coordinate
  center : Coordinate
  radius : ℚ
  kind : ZoneKind
deriving DecidableEq, Repr

/-- The broad-phase bounding-box disjointness test
`rMaxLat < minLat || rMinLat > maxLat || rMaxLng < minLng || rMinLng > maxLng`
that appears inline both in `doesRouteIntersectFlood`
(src/unnamed/part_002:95) and in the zone prefilter of
`calculateRouteHazardScore` (src/unnamed/part_002:131). -/
def bboxDisjoint (routePath : List Coordinate) (polygon : List Coordinate) : Bool :=
  let minLat := jsMin (polygon.map (·.lat))
  let maxLat := jsMax (polygon.map (·.lat))
  let minLng := jsMin (polygon.map (·.lng))
  let maxLng := jsMax (polygon.map (·.lng))
  let rMinLat := jsMin (routePath.map (·.lat))
  let rMaxLat := jsMax (routePath.map (·.lat))
  let rMinLng := jsMin (routePath.map (·.lng))
  let rMaxLng := jsMax (routePath.map (·.lng))
  JsNum.ltb rMaxLat minLat || JsNum.ltb maxLat rMinLat ||
    JsNum.ltb rMaxLng minLng || JsNum.ltb maxLng rMinLng

lemma ltb_fin_fin {a b : ℚ} : JsNum.ltb (.fin a) (.fin b) = true ↔ a < b := by
  simp [JsNum.ltb]

/-- When the broad phase rejects, no route point is inside the polygon. -/
lemma bboxDisjoint_no_inside (routePath polygon : List Coordinate)
    (h : bboxDisjoint routePath polygon = true) :
    ∀ p ∈ routePath, isPointInPolygon p polygon = false := by
  intro p hp
  by_cases hpoly : polygon = []
  · subst hpoly; rfl
  · have hroute : routePath ≠ [] := List.ne_nil_of_mem hp
    have hmlat : polygon.map (·.lat) ≠ [] := by simpa using hpoly
    have hmlng : polygon.map (·.lng) ≠ [] := by simpa using hpoly
    have hrlat : routePath.map (·.lat) ≠ [] := by simpa using hroute
    have hrlng : routePath.map (·.lng) ≠ [] := by simpa using hroute
    obtain ⟨mLat, hmLat, -, hmLatAll⟩ := jsMin_spec _ hmlat
    obtain ⟨MLat, hMLat, -, hMLatAll⟩ := jsMax_spec _ hmlat
    obtain ⟨mLng, hmLng, -, hmLngAll⟩ := jsMin_spec _ hmlng
    obtain ⟨MLng, hMLng, -, hMLngAll⟩ := jsMax_spec _ hmlng
    obtain ⟨rmLat, hrmLat, -, hrmLatAll⟩ := jsMin_spec _ hrlat
    obtain ⟨rMLat, hrMLat, -, hrMLatAll⟩ := jsMax_spec _ hrlat
    obtain ⟨rmLng, hrmLng, -, hrmLngAll⟩ := jsMin_spec _ hrlng
    obtain ⟨rMLng, hrMLng, -, hrMLngAll⟩ := jsMax_spec _ hrlng
    have hplat : p.lat ∈ routePath.map (·.lat) := List.mem_map_of_mem _ hp
    have hplng : p.lng ∈ routePath.map (·.lng) := List.mem_map_of_mem _ hp
    unfold bboxDisjoint at h
    rw [hmLat, hMLat, hmLng, hMLng, hrmLat, hrMLat, hrmLng, hrMLng] at h
    simp only [Bool.or_eq_true, ltb_fin_fin] at h
    rcases h with ((h1 | h2) | h3) | h4
    · -- every route latitude is strictly below every polygon latitude
      refine isPointInPolygon_false_of_lat_const p polygon true (fun v hv => ?_)
      have h1a : p.lat ≤ rMLat := hrMLatAll _ hplat
      have h1b : mLat ≤ v.lat := hmLatAll _ (List.mem_map_of_mem _ hv)
      exact decide_eq_true (by linarith)
    · -- every route latitude is strictly above every polygon latitude
      refine isPointInPolygon_false_of_lat_const p polygon false (fun v hv => ?_)
      have h2a : rmLat ≤ p.lat := hrmLatAll _ hplat
      have h2b : v.lat ≤ MLat := hMLatAll _ (List.mem_map_of_mem _ hv)
      exact decide_eq_false (by push_neg; linarith)
    · -- the route is strictly to the left of the polygon
      refine isPointInPolygon_false_of_left p polygon (fun v hv => ?_)
      have h3a : p.lng ≤ rMLng := hrMLngAll _ hplng
      have h3b : mLng ≤ v.lng := hmLngAll _ (List.mem_map_of_mem _ hv)
      linarith
    · -- the route is strictly to the right of the polygon
      refine isPointInPolygon_false_of_right p polygon (fun v hv => ?_)
      have h4a : rmLng ≤ p.lng := hrmLngAll _ hplng
      have h4b : v.lng ≤ MLng := hMLngAll _ (List.mem_map_of_mem _ hv)
      linarith

/-- Route/zone intersection test (src/unnamed/part_002:78-114,
`doesRouteIntersectFlood`): broad-phase bbox check, then a sweep over
route points restricted to a `0.001`-degree margin around the zone bbox,
with an exact polygon test inside.  The early-`return true` loop is
embedded as `List.any`. -/
def doesRouteIntersectFlood (routePath : List Coordinate) (floodZone : FloodZone) : Bool :=
  let minLat := jsMin (floodZone.polygon.map (·.lat))
  let maxLat := jsMax (floodZone.polygon.map (·.lat))
  let minLng := jsMin (floodZone.polygon.map (·.lng))
  let maxLng := jsMax (floodZone.polygon.map (·.lng))
  if bboxDisjoint routePath floodZone.polygon then false
  else
    let margin : ℚ := 1/1000
    routePath.any (fun p =>
      JsNum.leb (minLat.subQ margin) (.fin p.lat) &&
      JsNum.leb (.fin p.lat) (maxLat.addQ margin) &&
      JsNum.leb (minLng.subQ margin) (.fin p.lng) &&
      JsNum.leb (.fin p.lng) (maxLng.addQ margin) &&
      isPointInPolygon p floodZone.polygon)

/-- Hazard score (src/unnamed/part_002:117-149,
`calculateRouteHazardScore`): prefilter zones by bbox overlap with the
route, then count route points inside at least one surviving zone. -/
def calculateRouteHazardScore (routePath : List Coordinate) (floodZones : List FloodZone) : ℕ :=
  let relevantZones := floodZones.filter (fun zone => !(bboxDisjoint routePath zone.polygon))
  if relevantZones.length = 0 then 0
  else
    (routePath.filter (fun p =>
      relevantZones.any (fun zone => isPointInPolygon p zone.polygon))).length

lemma leb_fin_fin {a b : ℚ} : JsNum.leb (.fin a) (.fin b) = true ↔ a ≤ b := by
  simp [JsNum.leb]

/-- Broad phase and margin filter are exact: the intersect test equals
the plain exists-a-point-in-polygon check. -/
lemma doesRouteIntersectFlood_eq_any_inside
    (routePath : List Coordinate) (z : FloodZone) :
    doesRouteIntersectFlood routePath z =
      routePath.any (fun p => isPointInPolygon p z.polygon) := by
  unfold doesRouteIntersectFlood
  by_cases hbd : bboxDisjoint routePath z.polygon
  · rw [if_pos hbd]
    symm
    rw [List.any_eq_false]
    intro p hp
    simp [bboxDisjoint_no_inside _ _ hbd p hp]
  · rw [if_neg hbd]
    rw [Bool.eq_iff_iff]
    simp only [List.any_eq_true, Bool.and_eq_true]
    constructor
    · rintro ⟨p, hp, -, hpip⟩
      exact ⟨p, hp, hpip⟩
    · rintro ⟨p, hp, hpip⟩
      refine ⟨p, hp, ⟨⟨⟨?_, ?_⟩, ?_⟩, ?_⟩, hpip⟩ <;>
        · obtain ⟨⟨vup, hvup, hup⟩, ⟨vdn, hvdn, hdn⟩, ⟨vr, hvr, hr⟩, ⟨vl, hvl, hl⟩⟩ :=
            isPointInPolygon_bbox p z.polygon hpip
          have hmlat : z.polygon.map (·.lat) ≠ [] := by
            simpa using List.ne_nil_of_mem hvup
          have hmlng : z.polygon.map (·.lng) ≠ [] := by
            simpa using List.ne_nil_of_mem hvup
          obtain ⟨mLat, hmLat, -, hmLatAll⟩ := jsMin_spec _ hmlat
          obtain ⟨MLat, hMLat, -, hMLatAll⟩ := jsMax_spec _ hmlat
          obtain ⟨mLng, hmLng, -, hmLngAll⟩ := jsMin_spec _ hmlng
          obtain ⟨MLng, hMLng, -, hMLngAll⟩ := jsMax_spec _ hmlng
          first
          | · rw [hmLat]
              have : mLat ≤ vdn.lat := hmLatAll _ (List.mem_map_of_mem _ hvdn)
              exact leb_fin_fin.mpr (by linarith)
          | · rw [hMLat]
              have : vup.lat ≤ MLat := hMLatAll _ (List.mem_map_of_mem _ hvup)
              exact leb_fin_fin.mpr (by linarith)
          | · rw [hmLng]
              have : mLng ≤ vl.lng := hmLngAll _ (List.mem_map_of_mem _ hvl)
              exact leb_fin_fin.mpr (by linarith)
          | · rw [hMLng]
              have : vr.lng ≤ MLng := hMLngAll _ (List.mem_map_of_mem _ hvr)
              exact leb_fin_fin.mpr (by linarith)

/-- The zone prefilter never changes the score: it equals the plain count
of route points inside at least one zone. -/
lemma calculateRouteHazardScore_eq_count (routePath : List Coordinate)
    (zones : List FloodZone) :
    calculateRouteHazardScore routePath zones =
      (routePath.filter (fun p =>
        zones.any (fun z => isPointInPolygon p z.polygon))).length := by
  unfold calculateRouteHazardScore
  have hpt : ∀ p ∈ routePath,
      (zones.filter (fun z => !(bboxDisjoint routePath z.polygon))).any
          (fun z => isPointInPolygon p z.polygon) =
        zones.any (fun z => isPointInPolygon p z.polygon) := by
    intro p hp
    rw [Bool.eq_iff_iff]
    simp only [List.any_eq_true]
    constructor
    · rintro ⟨z, hz, hzp⟩
      exact ⟨z, (List.mem_filter.mp hz).1, hzp⟩
    · rintro ⟨z, hz, hzp⟩
      refine ⟨z, List.mem_filter.mpr ⟨hz, ?_⟩, hzp⟩
      rw [Bool.not_eq_true']
      by_contra hbd
      rw [Bool.not_eq_false] at hbd
      rw [bboxDisjoint_no_inside _ _ hbd p hp] at hzp
      exact Bool.false_ne_true hzp
  by_cases hlen : (zones.filter (fun z => !(bboxDisjoint routePath z.polygon))).length = 0
  · rw [if_pos hlen]
    have hrelnil := List.length_eq_zero.mp hlen
    symm
    rw [List.length_eq_zero, List.filter_eq_nil_iff]
    intro p hp
    rw [← hpt p hp, hrelnil]
    simp
  · rw [if_neg hlen, List.filter_congr hpt]

/-- C3. `calculateRouteHazardScore` returns exactly the number of route
sample points inside at least one zone (each point counted at most once
even under overlapping zones, and the bbox prefilter changes nothing);
consequently the score is `0` iff no sample point is in any zone, and it
is monotone non-decreasing when zones are appended to a fixed route. -/
theorem calculateRouteHazardScore_spec (routePath : List Coordinate)
    (zones extra : List FloodZone) :
    calculateRouteHazardScore routePath zones =
        (routePath.filter (fun p =>
          zones.any (fun z => isPointInPolygon p z.polygon))).length ∧
      (calculateRouteHazardScore routePath zones = 0 ↔
        ∀ p ∈ routePath, ∀ z ∈ zones, isPointInPolygon p z.polygon = false) ∧
      calculateRouteHazardScore routePath zones ≤
        calculateRouteHazardScore routePath (zones ++ extra) := by
  refine ⟨calculateRouteHazardScore_eq_count routePath zones, ?_, ?_⟩
  · rw [calculateRouteHazardScore_eq_count, List.length_eq_zero, List.filter_eq_nil_iff]
    constructor
    · intro h p hp z hz
      have := h p hp
      simp only [List.any_eq_true, not_exists] at this
      rw [Bool.eq_false_iff]
      intro hzp
      exact (by push_neg at this; exact (this z hz) hzp)
    · intro h p hp
      simp only [List.any_eq_true, not_exists]
      push_neg
      intro z hz
      rw [h p hp z hz]
      exact Bool.false_ne_true
  · rw [calculateRouteHazardScore_eq_count, calculateRouteHazardScore_eq_count,
      ← List.countP_eq_length_filter, ← List.countP_eq_length_filter]
    refine List.countP_mono_left (fun p hp hzp => ?_)
    rw [List.any_append, hzp, Bool.true_or]

/-- C4. `doesRouteIntersectFlood` (the spec's `routeIntersectsZone`)
returns true iff some sample point of the route path lies inside the
zone's polygon per `isPointInPolygon`: the bounding-box broad phase and
the `0.001`-degree margin filter of the narrow phase never produce a
false negative (nor a false positive) relative to the plain
exists-a-point-in-polygon check. -/
theorem routeIntersectsZone_refines_pointwise_check
    (routePath : List Coordinate) (z : FloodZone) :
    doesRouteIntersectFlood routePath z =
      routePath.any (fun p => isPointInPolygon p z.polygon) :=
  doesRouteIntersectFlood_eq_any_inside routePath z

/-- A polygon with fewer than three vertices contains no point under the
ray-casting test: with zero or one vertex no edge can cross the scan
line, and with two vertices the single segment is traversed once in each
direction, toggling the parity twice at the same crossing abscissa. -/
lemma isPointInPolygon_degenerate (p : Coordinate) (vs : List Coordinate)
    (h : vs.length < 3) : isPointInPolygon p vs = false := by
  match vs with
  | [] => rfl
  | [a] =>
    rw [isPointInPolygon_eq_foldEdges]
    have hc : cycleEdges [a] = [(a, a)] := rfl
    rw [hc]
    simp [edgeFlip]
  | [a, b] =>
    rw [isPointInPolygon_eq_foldEdges]
    have hc : cycleEdges [a, b] = [(a, b), (b, a)] := rfl
    rw [hc]
    simp only [List.foldl_cons, List.foldl_nil]
    by_cases hcond : decide (a.lat > p.lat) = decide (b.lat > p.lat)
    · rw [show edgeFlip p.lng p.lat (a, b).1 (a, b).2 = false from
          edgeFlip_false_of_same _ _ _ _ hcond,
        show edgeFlip p.lng p.lat (b, a).1 (b, a).2 = false from
          edgeFlip_false_of_same _ _ _ _ hcond.symm]
      simp
    · have hne : b.lat - a.lat ≠ 0 := by
        intro h0
        exact hcond (by rw [show a.lat = b.lat from by linarith [sub_eq_zero.mp h0]])
      have hne2 : a.lat - b.lat ≠ 0 := fun h0 => hne (by
        have := sub_eq_zero.mp h0; linarith)
      have hT : (b.lng - a.lng) * (p.lat - a.lat) / (b.lat - a.lat) + a.lng =
          (a.lng - b.lng) * (p.lat - b.lat) / (a.lat - b.lat) + b.lng := by
        field_simp
        ring
      have hflip : edgeFlip p.lng p.lat a b = edgeFlip p.lng p.lat b a := by
        unfold edgeFlip
        rw [hT]
        cases hab : decide (a.lat > p.lat) <;> cases hba : decide (b.lat > p.lat) <;> simp
      show (if edgeFlip p.lng p.lat b a then
          !(if edgeFlip p.lng p.lat a b then !false else false)
        else (if edgeFlip p.lng p.lat a b then !false else false)) = false
      rw [← hflip]
      cases hf : edgeFlip p.lng p.lat a b <;> simp
  | a :: b :: c :: rest =>
    simp only [List.length_cons] at h
    omega

/-- C10. For every point and every polygon with fewer than 3 vertices,
`isPointInPolygon` returns false; hence a hazard zone with a degenerate
polygon never marks any route sample point as in danger in the hazard
score, and never triggers a route-intersection compromise. -/
theorem degenerate_polygon_never_flags (p : Coordinate) (vs : List Coordinate)
    (routePath : List Coordinate) (z : FloodZone)
    (hvs : vs.length < 3) (hz : z.polygon.length < 3) :
    isPointInPolygon p vs = false ∧
      doesRouteIntersectFlood routePath z = false ∧
      calculateRouteHazardScore routePath [z] = 0 := by
  refine ⟨isPointInPolygon_degenerate p vs hvs, ?_, ?_⟩
  · rw [doesRouteIntersectFlood_eq_any_inside, List.any_eq_false]
    intro q hq
    simp [isPointInPolygon_degenerate q z.polygon hz]
  · rw [calculateRouteHazardScore_eq_count, List.length_eq_zero,
      List.filter_eq_nil_iff]
    intro q hq
    simp [isPointInPolygon_degenerate q z.polygon hz]

/-- Witness for the degenerate-polygon claim at concrete inputs. -/
theorem degenerate_polygon_never_flags_witness :
    isPointInPolygon ⟨0, 0⟩ [⟨5, -1⟩, ⟨-5, 1⟩] = false ∧
      doesRouteIntersectFlood [⟨0, 0⟩]
        ⟨"z", "z", [⟨5, -1⟩, ⟨-5, 1⟩], ⟨0, 0⟩, 500, .manual_polygon⟩ = false ∧
      calculateRouteHazardScore [⟨0, 0⟩]
        [⟨"z", "z", [⟨5, -1⟩, ⟨-5, 1⟩], ⟨0, 0⟩, 500, .manual_polygon⟩] = 0 :=
  degenerate_polygon_never_flags ⟨0, 0⟩ [⟨5, -1⟩, ⟨-5, 1⟩] [⟨0, 0⟩]
    ⟨"z", "z", [⟨5, -1⟩, ⟨-5, 1⟩], ⟨0, 0⟩, 500, .manual_polygon⟩
    (by simp) (by simp)

/-- State of the GPS low-pass filter (src/unnamed/part_002:39-43,
`LocationSmoother`): the two nullable fields `lastLat`, `lastLng`. -/
structure LocationSmoother where
  lastLat : Option ℚ
  lastLng : Option ℚ
deriving DecidableEq, Repr

/-- The filter coefficient `alpha = 0.3` (30% new data, 70% old data);
a private field of the class, never reassigned. -/
def LocationSmoother.alpha : ℚ := 3 / 10

/-- A freshly constructed smoother: both fields `null`. -/
def LocationSmoother.init : LocationSmoother := ⟨none, none⟩

/-- `smooth(lat, lng)` (src/unnamed/part_002:44-59): on the first call
seed the state and return the raw sample; afterwards apply the low-pass
update `last + alpha * (raw - last)` per axis, store it, and return it.
Returns the produced coordinate together with the updated state. -/
def LocationSmoother.smooth (s : LocationSmoother) (lat lng : ℚ) :
    Coordinate × LocationSmoother :=
  match s.lastLat, s.lastLng with
  | some la, some lo =>
    let smoothedLat := la + LocationSmoother.alpha * (lat - la)
    let smoothedLng := lo + LocationSmoother.alpha * (lng - lo)
    (⟨smoothedLat, smoothedLng⟩, ⟨some smoothedLat, some smoothedLng⟩)
  | _, _ => (⟨lat, lng⟩, ⟨some lat, some lng⟩)

/-- C9. `LocationSmoother.smooth` implements
`smoothed = previous + 0.3 * (raw - previous)` per axis: the first call
of a session returns the raw value unchanged and seeds the state; a
constant input is a fixed point under arbitrarily many iterations; and a
single perturbed sample moves the output by exactly `0.3` of the delta
from the previous state. -/
theorem locationSmoother_smooth_spec (lat lng la lo c1 c2 d1 d2 : ℚ) (n : ℕ)
    (s : LocationSmoother) (h1 : s.lastLat = some la) (h2 : s.lastLng = some lo) :
    LocationSmoother.init.smooth lat lng = (⟨lat, lng⟩, ⟨some lat, some lng⟩) ∧
      (s.smooth lat lng).1 =
        ⟨la + (3 / 10) * (lat - la), lo + (3 / 10) * (lng - lo)⟩ ∧
      (LocationSmoother.mk (some c1) (some c2)).smooth c1 c2 =
        (⟨c1, c2⟩, ⟨some c1, some c2⟩) ∧
      (fun st => (LocationSmoother.smooth st c1 c2).2)^[n] ⟨some c1, some c2⟩ =
        ⟨some c1, some c2⟩ ∧
      (LocationSmoother.mk (some la) (some lo)).smooth (la + d1) (lo + d2) =
        (⟨la + (3 / 10) * d1, lo + (3 / 10) * d2⟩,
          ⟨some (la + (3 / 10) * d1), some (lo + (3 / 10) * d2)⟩) := by
  have hfix : (LocationSmoother.mk (some c1) (some c2)).smooth c1 c2 =
      (⟨c1, c2⟩, ⟨some c1, some c2⟩) := by
    simp [LocationSmoother.smooth]
  refine ⟨rfl, ?_, hfix, ?_, ?_⟩
  · obtain ⟨llat, llng⟩ := s
    simp only at h1 h2
    subst h1; subst h2
    simp [LocationSmoother.smooth, LocationSmoother.alpha]
  · induction n with
    | zero => rfl
    | succ k ih =>
      rw [Function.iterate_succ_apply, show
        (LocationSmoother.smooth ⟨some c1, some c2⟩ c1 c2).2 = ⟨some c1, some c2⟩ from
          congrArg Prod.snd hfix, ih]
  · simp only [LocationSmoother.smooth, LocationSmoother.alpha]
    norm_num

/-- Witness for the smoother claim at concrete inputs. -/
theorem locationSmoother_smooth_spec_witness :
    (LocationSmoother.mk (some 10) (some 20)).lastLat = some 10 ∧
      ((LocationSmoother.mk (some 10) (some 20)).smooth 12 24).1 =
        ⟨10 + (3 / 10) * (12 - 10), 20 + (3 / 10) * (24 - 20)⟩ := by
  obtain ⟨-, h, -, -, -⟩ :=
    locationSmoother_smooth_spec 12 24 10 20 0 0 0 0 1
      (LocationSmoother.mk (some 10) (some 20)) rfl rfl
  exact ⟨rfl, h⟩

/-- `prev.slice(-49)`: the last 49 elements of the trail. -/
def sliceLast49 (l : List Coordinate) : List Coordinate := l.drop (l.length - 49)

/-- Breadcrumb update in the real-GPS handler (src/App.tsx:226-232):
`const last = prev[prev.length - 1];`
`if (!last || haversineDistance(last, newLoc) > 5) return [...prev.slice(-49), newLoc];`
`return prev;`
The haversine distance — floating-point trigonometry — is abstracted as
the parameter `dist`; only its comparison against 5 matters here. -/
def pathTrailRealUpdate (dist : Coordinate → Coordinate → ℚ)
    (prev : List Coordinate) (newLoc : Coordinate) : List Coordinate :=
  match prev.getLast? with
  | none => sliceLast49 prev ++ [newLoc]
  | some last =>
    if dist last newLoc > 5 then sliceLast49 prev ++ [newLoc] else prev

/-- Breadcrumb update in the simulated playback (src/App.tsx:371):
`setPathTrail(prev => [...prev.slice(-49), currentPos])` — appended on
every tick, with no distance check. -/
def pathTrailSimUpdate (prev : List Coordinate) (pos : Coordinate) : List Coordinate :=
  sliceLast49 prev ++ [pos]

/-- C8 as stated, for the simulated-playback update, over an abstract
distance function: a new point is appended only when it is at least 5 m
from the last retained point. -/
def simTrailAppendsOnlyBeyond5m (dist : Coordinate → Coordinate → ℚ) : Prop :=
  ∀ prev pos last, prev.getLast? = some last →
    pathTrailSimUpdate prev pos ≠ prev → 5 ≤ dist last pos

/-- Counterexample to C8 as stated: the simulated playback appends a
point identical to the last retained one — at distance 0, not ≥ 5 m (the
code's `haversineDistance` returns exactly 0 on two equal coordinates,
which is all this instantiation relies on). -/
theorem pathTrailSim_appends_within_5m :
    ¬ simTrailAppendsOnlyBeyond5m (fun _ _ => 0) := by
  intro h
  have h2 := h [⟨0, 0⟩] ⟨0, 0⟩ ⟨0, 0⟩ rfl (by
    simp [pathTrailSimUpdate, sliceLast49])
  norm_num at h2

lemma sliceLast49_length (l : List Coordinate) : (sliceLast49 l).length ≤ 49 := by
  simp only [sliceLast49, List.length_drop]
  omega

/-- C8 amended. After every position update the trail holds at most 50
points (given it did before); the real-GPS handler appends only when the
trail was empty or the new point is more than 5 m (hence at least 5 m)
from the last retained point; the simulated playback appends on every
tick with no distance check. -/
theorem pathTrail_bounded_buffer_spec (dist : Coordinate → Coordinate → ℚ)
    (prev : List Coordinate) (newLoc : Coordinate) (hprev : prev.length ≤ 50) :
    (pathTrailRealUpdate dist prev newLoc).length ≤ 50 ∧
      (pathTrailSimUpdate prev newLoc).length ≤ 50 ∧
      (∀ last, prev.getLast? = some last →
        pathTrailRealUpdate dist prev newLoc ≠ prev → 5 < dist last newLoc) ∧
      pathTrailSimUpdate prev newLoc = sliceLast49 prev ++ [newLoc] := by
  refine ⟨?_, ?_, ?_, rfl⟩
  · unfold pathTrailRealUpdate
    match prev.getLast? with
    | none =>
      simp only [List.length_append, List.length_cons, List.length_nil]
      have := sliceLast49_length prev
      omega
    | some last =>
      show (if dist last newLoc > 5 then sliceLast49 prev ++ [newLoc] else prev).length ≤ 50
      by_cases hd : dist last newLoc > 5
      · rw [if_pos hd]
        simp only [List.length_append, List.length_cons, List.length_nil]
        have := sliceLast49_length prev
        omega
      · rw [if_neg hd]
        exact hprev
  · simp only [pathTrailSimUpdate, List.length_append, List.length_cons, List.length_nil]
    have := sliceLast49_length prev
    omega
  · intro last hlast hne
    unfold pathTrailRealUpdate at hne
    rw [hlast] at hne
    have hne2 : (if dist last newLoc > 5 then sliceLast49 prev ++ [newLoc] else prev) ≠ prev := hne
    by_cases hd : dist last newLoc > 5
    · exact hd
    · rw [if_neg hd] at hne2
      exact absurd rfl hne2

/-- Witness for the amended trail claim at concrete inputs. -/
theorem pathTrail_bounded_buffer_spec_witness :
    ([⟨0, 0⟩] : List Coordinate).length ≤ 50 ∧
      (pathTrailRealUpdate (fun _ _ => 6) [⟨0, 0⟩] ⟨1, 1⟩).length ≤ 50 ∧
      (pathTrailSimUpdate [⟨0, 0⟩] ⟨1, 1⟩).length ≤ 50 := by
  obtain ⟨h1, h2, -, -⟩ :=
    pathTrail_bounded_buffer_spec (fun _ _ => 6) [⟨0, 0⟩] ⟨1, 1⟩ (by simp)
  exact ⟨by simp, h1, h2⟩

/-- A raw coordinate as received at an untrusted boundary: both
components are arbitrary JavaScript numbers. -/
structure CoordinateJS where
  lat : JsNum
  lng : JsNum
deriving DecidableEq, Repr

/-- The validity predicate of the route provider client
(src/services/mapService.ts:16-18):
`!isNaN(c.lat) && !isNaN(c.lng) && isFinite(c.lat) && isFinite(c.lng)`
(the leading `c &&` truthiness check cannot fail here: the TypeScript
type `Coordinate[]` has no null members). -/
def isValidCoordJS (c : CoordinateJS) : Bool :=
  !c.lat.isNaNb && !c.lng.isNaNb && c.lat.isFiniteb && c.lng.isFiniteb

/-- A routing endpoint. -/
inductive Endpoint where
  | primary : Endpoint
  | backup : Endpoint
deriving DecidableEq, Repr

/-- Route provider client (src/services/mapService.ts:14-56,
`fetchOSRMRoute`).  Each `performFetch` attempt — an HTTP request under a
5-second abort timer — is modelled as an uninterpreted function from the
request waypoints to an outcome; timeout, network error, non-success
status and malformed body all collapse into the `.error` outcome.  The
result carries the trace of endpoints actually contacted, and the
function is total: exhaustion of both endpoints yields `none`, never an
exception. -/
def fetchOSRMRoute {α : Type} (primaryFetch backupFetch : List Coordinate → Except Unit α)
    (coordinates : List CoordinateJS) : Option α × List Endpoint :=
  let validCoords := coordinates.filter isValidCoordJS
  if validCoords.length < 2 then (none, [])
  else
    let coords := validCoords.map (fun c => Coordinate.mk c.lat.toQ c.lng.toQ)
    match primaryFetch coords with
    | .ok data => (some data, [.primary])
    | .error _ =>
      match backupFetch coords with
      | .ok data => (some data, [.primary, .backup])
      | .error _ => (none, [.primary, .backup])

/-- C6. The route provider client: fewer than 2 valid (finite, non-NaN)
input coordinates yields `null` with no network request; a primary
success is returned with only the primary endpoint contacted; any primary
failure triggers exactly one retry against the backup endpoint; and if
both fail the client returns `null` (it is a total function — nothing is
raised to the caller). -/
theorem fetchOSRMRoute_fallback_spec {α : Type}
    (primaryFetch backupFetch : List Coordinate → Except Unit α)
    (coordinates : List CoordinateJS) :
    (((coordinates.filter isValidCoordJS).length < 2) →
      fetchOSRMRoute primaryFetch backupFetch coordinates = (none, [])) ∧
    (∀ d, ¬ ((coordinates.filter isValidCoordJS).length < 2) →
      primaryFetch ((coordinates.filter isValidCoordJS).map
        (fun c => Coordinate.mk c.lat.toQ c.lng.toQ)) = .ok d →
      fetchOSRMRoute primaryFetch backupFetch coordinates = (some d, [.primary])) ∧
    (∀ d, ¬ ((coordinates.filter isValidCoordJS).length < 2) →
      primaryFetch ((coordinates.filter isValidCoordJS).map
        (fun c => Coordinate.mk c.lat.toQ c.lng.toQ)) = .error () →
      backupFetch ((coordinates.filter isValidCoordJS).map
        (fun c => Coordinate.mk c.lat.toQ c.lng.toQ)) = .ok d →
      fetchOSRMRoute primaryFetch backupFetch coordinates = (some d, [.primary, .backup])) ∧
    (¬ ((coordinates.filter isValidCoordJS).length < 2) →
      primaryFetch ((coordinates.filter isValidCoordJS).map
        (fun c => Coordinate.mk c.lat.toQ c.lng.toQ)) = .error () →
      backupFetch ((coordinates.filter isValidCoordJS).map
        (fun c => Coordinate.mk c.lat.toQ c.lng.toQ)) = .error () →
      fetchOSRMRoute primaryFetch backupFetch coordinates = (none, [.primary, .backup])) := by
  refine ⟨?_, ?_, ?_, ?_⟩
  · intro hlt
    simp only [fetchOSRMRoute]
    rw [if_pos hlt]
  · intro d hge hok
    simp only [fetchOSRMRoute]
    rw [if_neg hge, hok]
  · intro d hge herr hok
    simp only [fetchOSRMRoute]
    rw [if_neg hge, herr, hok]
  · intro hge herr1 herr2
    simp only [fetchOSRMRoute]
    rw [if_neg hge, herr1, herr2]

/-- Witness for the provider-fallback claim: concrete coordinates with a
failing primary and a succeeding backup. -/
theorem fetchOSRMRoute_fallback_spec_witness :
    fetchOSRMRoute (α := ℕ) (fun _ => .error ()) (fun _ => .ok 7)
      [⟨.fin 0, .fin 0⟩, ⟨.fin 1, .fin 1⟩] = (some 7, [.primary, .backup]) ∧
    fetchOSRMRoute (α := ℕ) (fun _ => .error ()) (fun _ => .ok 7)
      [⟨.nan, .fin 0⟩, ⟨.fin 1, .posinf⟩] = (none, []) := by
  obtain ⟨h1, -, h3, -⟩ :=
    fetchOSRMRoute_fallback_spec (α := ℕ) (fun _ => .error ()) (fun _ => .ok 7)
      [⟨.fin 0, .fin 0⟩, ⟨.fin 1, .fin 1⟩]
  obtain ⟨h1b, -, -, -⟩ :=
    fetchOSRMRoute_fallback_spec (α := ℕ) (fun _ => .error ()) (fun _ => .ok 7)
      [⟨.nan, .fin 0⟩, ⟨.fin 1, .posinf⟩]
  refine ⟨h3 7 (by simp [isValidCoordJS, JsNum.isNaNb, JsNum.isFiniteb]) rfl rfl, ?_⟩
  exact h1b (by simp [isValidCoordJS, JsNum.isNaNb, JsNum.isFiniteb])

/-- Position-feed boundary validation (src/App.tsx:195-199,
`handleSuccess`): `if (isNaN(rawLat) || isNaN(rawLng)) return;` — the fix
is processed iff neither raw component is `NaN`. -/
def handleSuccessAccepts (rawLat rawLng : JsNum) : Bool :=
  !(rawLat.isNaNb || rawLng.isNaNb)

/-- Manual map-click boundary validation (src/App.tsx:433-435,
`handleMapClick`): `if (isNaN(lat) || isNaN(lng)) return;`. -/
def handleMapClickAccepts (lat lng : JsNum) : Bool :=
  !(lat.isNaNb || lng.isNaNb)

/-- Search-result selection boundary validation (src/App.tsx:514-516,
`handleSelectDestination`): `if (!isNaN(lat) && !isNaN(lng))`. -/
def handleSelectDestinationAccepts (lat lng : JsNum) : Bool :=
  !lat.isNaNb && !lng.isNaNb

/-- Counterexample to C7 as stated: the map-click boundary accepts an
infinite (non-finite, non-NaN) latitude, which then flows into geometry
and routing code; only the provider client filters non-finite values. -/
theorem mapClick_accepts_infinite_coordinate :
    handleMapClickAccepts .posinf (.fin 0) = true ∧
      JsNum.isFiniteb .posinf = false ∧
      handleSuccessAccepts .posinf (.fin 0) = true ∧
      handleSelectDestinationAccepts .posinf (.fin 0) = true :=
  ⟨rfl, rfl, rfl, rfl⟩

/-- C7 amended. Every coordinate-entry boundary (position feed, manual
map click, search-result selection) rejects coordinates with a NaN
component; non-finite (infinite) components are not screened at these
boundaries — they are filtered only by the route provider client, whose
request list contains exclusively finite, non-NaN coordinates. -/
theorem boundaries_reject_nan (lat lng : JsNum)
    (h : (lat.isNaNb || lng.isNaNb) = true) :
    handleSuccessAccepts lat lng = false ∧
      handleMapClickAccepts lat lng = false ∧
      handleSelectDestinationAccepts lat lng = false ∧
      (∀ (coords : List CoordinateJS) c, c ∈ coords.filter isValidCoordJS →
        c.lat.isNaNb = false ∧ c.lng.isNaNb = false ∧
          c.lat.isFiniteb = true ∧ c.lng.isFiniteb = true) := by
  refine ⟨?_, ?_, ?_, ?_⟩
  · simp [handleSuccessAccepts, h]
  · simp [handleMapClickAccepts, h]
  · rcases Bool.or_eq_true _ _ |>.mp h with h1 | h1 <;>
      simp [handleSelectDestinationAccepts, h1]
  · intro coords c hc
    have hv := (List.mem_filter.mp hc).2
    simp only [isValidCoordJS, Bool.and_eq_true, Bool.not_eq_true'] at hv
    exact ⟨hv.1.1.1, hv.1.1.2, hv.1.2, hv.2⟩

/-- Witness for the amended boundary-validation claim at a NaN input. -/
theorem boundaries_reject_nan_witness :
    handleSuccessAccepts .nan (.fin 0) = false ∧
      handleMapClickAccepts .nan (.fin 0) = false ∧
      handleSelectDestinationAccepts .nan (.fin 0) = false := by
  obtain ⟨h1, h2, h3, -⟩ := boundaries_reject_nan .nan (.fin 0) rfl
  exact ⟨h1, h2, h3⟩

/-- A route polyline with its totals (src/unnamed/part_000, `RouteData`).
The `steps` and `bbox` fields carried by the source type are never
inspected by the verified routing logic and are omitted. -/
structure RouteData where
  coordinates : List Coordinate
  totalDistance : ℚ
  totalDuration : ℚ
deriving DecidableEq, Repr

/-- One scored detour candidate (src/services/mapService.ts:112-116,
`RouteEvaluation`). -/
structure RouteEvaluation where
  route : RouteData
  hazardScore : ℕ
  detourType : String
deriving DecidableEq, Repr

/-- The sort comparator of the selector
(src/services/mapService.ts:165-170): hazard score difference when the
scores differ, total distance difference otherwise. -/
def cmpEvals (a b : RouteEvaluation) : ℚ :=
  if a.hazardScore ≠ b.hazardScore then
    (a.hazardScore : ℚ) - (b.hazardScore : ℚ)
  else a.route.totalDistance - b.route.totalDistance

/-- `validEvaluations.sort(cmp)` (src/services/mapService.ts:165):
ES2019 `Array.prototype.sort` is stable, and with this consistent
comparator every stable sort produces the same list, so it is embedded
as a stable merge sort ordered by `cmpEvals a b ≤ 0`. -/
def sortEvaluations (l : List RouteEvaluation) : List RouteEvaluation :=
  l.mergeSort (fun a b => decide (cmpEvals a b ≤ 0))

lemma cmpEvals_le_iff (a b : RouteEvaluation) :
    cmpEvals a b ≤ 0 ↔
      (a.hazardScore < b.hazardScore ∨
        (a.hazardScore = b.hazardScore ∧
          a.route.totalDistance ≤ b.route.totalDistance)) := by
  unfold cmpEvals
  by_cases h : a.hazardScore = b.hazardScore
  · rw [if_neg (by simpa using h)]
    simp [h, sub_nonpos]
  · rw [if_pos h]
    rw [sub_nonpos, Nat.cast_le]
    constructor
    · intro hle
      exact Or.inl (lt_of_le_of_ne hle h)
    · rintro (hlt | ⟨heq, -⟩)
      · exact hlt.le
      · exact absurd heq h

lemma cmpEvals_trans {a b c : RouteEvaluation}
    (hab : cmpEvals a b ≤ 0) (hbc : cmpEvals b c ≤ 0) : cmpEvals a c ≤ 0 := by
  rw [cmpEvals_le_iff] at hab hbc ⊢
  rcases hab with h1 | ⟨h1, h1d⟩ <;> rcases hbc with h2 | ⟨h2, h2d⟩
  · exact Or.inl (h1.trans h2)
  · exact Or.inl (h2 ▸ h1)
  · exact Or.inl (h1 ▸ h2)
  · exact Or.inr ⟨h1.trans h2, le_trans h1d h2d⟩

lemma cmpEvals_total (a b : RouteEvaluation) :
    cmpEvals a b ≤ 0 ∨ cmpEvals b a ≤ 0 := by
  rw [cmpEvals_le_iff, cmpEvals_le_iff]
  rcases lt_trichotomy a.hazardScore b.hazardScore with h | h | h
  · exact Or.inl (Or.inl h)
  · rcases le_total a.route.totalDistance b.route.totalDistance with hd | hd
    · exact Or.inl (Or.inr ⟨h, hd⟩)
    · exact Or.inr (Or.inr ⟨h.symm, hd⟩)
  · exact Or.inr (Or.inl h)

/-- The head of the sorted evaluation list is a member that is minimal in
the (score, then distance) lexicographic order. -/
lemma sortEvaluations_head_min (l : List RouteEvaluation) (hne : l ≠ []) :
    ∃ e, (sortEvaluations l).head? = some e ∧ e ∈ l ∧
      ∀ b ∈ l, cmpEvals e b ≤ 0 := by
  have hperm : (sortEvaluations l).Perm l := List.mergeSort_perm l _
  have hsorted : (sortEvaluations l).Pairwise
      (fun a b => (decide (cmpEvals a b ≤ 0)) = true) :=
    List.sorted_mergeSort
      (fun a b c hab hbc => by
        rw [decide_eq_true_eq] at hab hbc ⊢
        exact cmpEvals_trans hab hbc)
      (fun a b => by
        rw [Bool.or_eq_true, decide_eq_true_eq, decide_eq_true_eq]
        exact cmpEvals_total a b)
      l
  obtain ⟨e, rest, hS⟩ : ∃ e rest, sortEvaluations l = e :: rest := by
    cases hsl : sortEvaluations l with
    | nil =>
      rw [hsl] at hperm
      exact absurd hperm.nil_eq.symm hne
    | cons e rest => exact ⟨e, rest, rfl⟩
  have hmemS : e ∈ sortEvaluations l := by
    rw [hS]; exact List.mem_cons_self e rest
  refine ⟨e, by rw [hS]; rfl, hperm.subset hmemS, ?_⟩
  intro b hb
  have hbS : b ∈ sortEvaluations l := hperm.mem_iff.mpr hb
  rw [hS] at hbS hsorted
  rcases List.mem_cons.mp hbS with rfl | hbrest
  · rw [cmpEvals_le_iff]
    exact Or.inr ⟨rfl, le_refl _⟩
  · have hle := (List.pairwise_cons.mp hsorted).1 b hbrest
    rw [decide_eq_true_eq] at hle
    exact hle

/-- C2. The selector (sort by ascending hazard score, ties by ascending
total distance, take the first element) returns a member of the
evaluation list that is lexicographically minimal: its hazard score is
at most every other score, and among evaluations of equal score its
total distance is minimal (so with unequal scores the lower score wins
regardless of distance).  The selected (score, distance) key depends
only on the multiset of evaluations — the selection is invariant, up to
that key, under any permutation of the provider responses. -/
theorem selector_lex_minimal (l : List RouteEvaluation) (hne : l ≠ []) :
    ∃ e, (sortEvaluations l).head? = some e ∧ e ∈ l ∧
      (∀ b ∈ l, e.hazardScore ≤ b.hazardScore ∧
        (e.hazardScore = b.hazardScore →
          e.route.totalDistance ≤ b.route.totalDistance)) ∧
      ∀ l2 : List RouteEvaluation, l.Perm l2 →
        ∃ e2, (sortEvaluations l2).head? = some e2 ∧
          e2.hazardScore = e.hazardScore ∧
          e2.route.totalDistance = e.route.totalDistance := by
  obtain ⟨e, hhead, hmem, hmin⟩ := sortEvaluations_head_min l hne
  have hlex : ∀ b ∈ l, e.hazardScore ≤ b.hazardScore ∧
      (e.hazardScore = b.hazardScore →
        e.route.totalDistance ≤ b.route.totalDistance) := by
    intro b hb
    have := (cmpEvals_le_iff e b).mp (hmin b hb)
    rcases this with h | ⟨h, hd⟩
    · exact ⟨h.le, fun heq => absurd heq (Nat.ne_of_lt h)⟩
    · exact ⟨h.le, fun _ => hd⟩
  refine ⟨e, hhead, hmem, hlex, ?_⟩
  intro l2 hperm12
  have hne2 : l2 ≠ [] := by
    intro h0
    rw [h0] at hperm12
    exact hne hperm12.eq_nil
  obtain ⟨e2, hhead2, hmem2, hmin2⟩ := sortEvaluations_head_min l2 hne2
  have he2l : e2 ∈ l := hperm12.mem_iff.mpr hmem2
  have hel2 : e ∈ l2 := hperm12.mem_iff.mp hmem
  have h12 := (cmpEvals_le_iff e e2).mp (hmin e2 he2l)
  have h21 := (cmpEvals_le_iff e2 e).mp (hmin2 e hel2)
  have hscore : e2.hazardScore = e.hazardScore := by
    rcases h12 with h | ⟨h, -⟩ <;> rcases h21 with h2 | ⟨h2, -⟩ <;> omega
  refine ⟨e2, hhead2, hscore, ?_⟩
  rcases h12 with h | ⟨h, hd⟩
  · omega
  · rcases h21 with h2 | ⟨h2, hd2⟩
    · omega
    · exact le_antisymm hd2 hd

/-- Witness for the selector claim: two evaluations with equal score and
distinct distances; the shorter is selected. -/
theorem selector_lex_minimal_witness :
    ([RouteEvaluation.mk ⟨[], 9, 1⟩ 2 "a",
      RouteEvaluation.mk ⟨[], 4, 1⟩ 2 "b"] : List RouteEvaluation) ≠ [] ∧
    ∃ e, (sortEvaluations
        [RouteEvaluation.mk ⟨[], 9, 1⟩ 2 "a",
          RouteEvaluation.mk ⟨[], 4, 1⟩ 2 "b"]).head? = some e ∧
      e ∈ [RouteEvaluation.mk ⟨[], 9, 1⟩ 2 "a",
        RouteEvaluation.mk ⟨[], 4, 1⟩ 2 "b"] ∧
      e.route.totalDistance ≤ 4 := by
  have hne : ([RouteEvaluation.mk ⟨[], 9, 1⟩ 2 "a",
      RouteEvaluation.mk ⟨[], 4, 1⟩ 2 "b"] : List RouteEvaluation) ≠ [] := by
    simp
  obtain ⟨e, hhead, hmem, hlex, -⟩ := selector_lex_minimal _ hne
  refine ⟨hne, e, hhead, hmem, ?_⟩
  have := (hlex (RouteEvaluation.mk ⟨[], 4, 1⟩ 2 "b") (by simp)).2
  rcases List.mem_cons.mp hmem with rfl | hm
  · exact this rfl
  · rcases List.mem_cons.mp hm with rfl | hm2
    · exact this rfl
    · simp at hm2

/-- Perpendicular offset waypoint (src/unnamed/part_002:152-168,
`calculateOffsetPoint`).  `Math.sqrt` is the uninterpreted parameter
`sqrtFn`; the routing logic never inspects the produced coordinate — it
is only forwarded to the provider. -/
def calculateOffsetPoint (sqrtFn : ℚ → ℚ) (start end_ center : Coordinate)
    (multiplier radiusMeters : ℚ) : Coordinate :=
  let dx := end_.lng - start.lng
  let dy := end_.lat - start.lat
  let len := sqrtFn (dx * dx + dy * dy)
  if len = 0 then center
  else
    let perpX := -dy / len
    let perpY := dx / len
    let radiusInDegrees := radiusMeters / 111111
    let offsetAmount := radiusInDegrees * multiplier
    ⟨center.lat + perpY * offsetAmount, center.lng + perpX * offsetAmount⟩

/-- Expanded bounding-box corners (src/unnamed/part_002:170-189,
`getExpandedBoundingBoxCorners`), order TL, TR, BR, BL.  On an empty
polygon the JS bbox would be `±Infinity` (propagating `NaN` into the
corners); here `toQ` defaults to 0 — every call site in the verified
flow passes a zone whose polygon has at least one vertex. -/
def getExpandedBoundingBoxCorners (zone : FloodZone) (expansionFactor : ℚ) :
    List Coordinate :=
  let minLat := (jsMin (zone.polygon.map (·.lat))).toQ
  let maxLat := (jsMax (zone.polygon.map (·.lat))).toQ
  let minLng := (jsMin (zone.polygon.map (·.lng))).toQ
  let maxLng := (jsMax (zone.polygon.map (·.lng))).toQ
  let latSpan := maxLat - minLat
  let lngSpan := maxLng - minLng
  let latMargin := latSpan * (expansionFactor - 1) / 2
  let lngMargin := lngSpan * (expansionFactor - 1) / 2
  [⟨maxLat + latMargin, minLng - lngMargin⟩,
    ⟨maxLat + latMargin, maxLng + lngMargin⟩,
    ⟨minLat - latMargin, maxLng + lngMargin⟩,
    ⟨minLat - latMargin, minLng - lngMargin⟩]

/-- A labelled detour waypoint (src/unnamed/part_002:191-194,
`DetourCandidate`). -/
structure DetourCandidate where
  kind : String
  waypoint : Coordinate
deriving DecidableEq, Repr

/-- The fixed set of 8 detour candidates
(src/unnamed/part_002:197-216, `generateDetourWaypoints`):
4 perpendicular offsets (left/right x tight 1.5 / wide 3.0) and the 4
corners of the hazard bbox expanded by 1.3. -/
def generateDetourWaypoints (sqrtFn : ℚ → ℚ) (start end_ : Coordinate)
    (hazard : FloodZone) : List DetourCandidate :=
  let corners := getExpandedBoundingBoxCorners hazard (13/10)
  [⟨"Perpendicular Left (Tight)",
      calculateOffsetPoint sqrtFn start end_ hazard.center (3/2) hazard.radius⟩,
    ⟨"Perpendicular Right (Tight)",
      calculateOffsetPoint sqrtFn start end_ hazard.center (-(3/2)) hazard.radius⟩,
    ⟨"Perpendicular Left (Wide)",
      calculateOffsetPoint sqrtFn start end_ hazard.center 3 hazard.radius⟩,
    ⟨"Perpendicular Right (Wide)",
      calculateOffsetPoint sqrtFn start end_ hazard.center (-3) hazard.radius⟩,
    ⟨"Corner Top-Left", corners.getD 0 ⟨0, 0⟩⟩,
    ⟨"Corner Top-Right", corners.getD 1 ⟨0, 0⟩⟩,
    ⟨"Corner Bottom-Right", corners.getD 2 ⟨0, 0⟩⟩,
    ⟨"Corner Bottom-Left", corners.getD 3 ⟨0, 0⟩⟩]

/-- Merge intersecting zones into one bounding hazard
(src/services/mapService.ts:74-110, `getCombinedHazardZone`): `null` on
an empty zone list, otherwise the union-bbox rectangle with an estimated
radius of half the bbox diagonal, at least 500 m.  The `forEach` min/max
sweep over all polygon points is the fold over the concatenated point
list; `Math.sqrt` is `sqrtFn`; `toQ` stands where all-empty polygons
would make the JS produce `NaN` (unreachable in the verified flow, where
every intersecting zone has a vertex). -/
def getCombinedHazardZone (sqrtFn : ℚ → ℚ) (zones : List FloodZone) :
    Option FloodZone :=
  if zones.length = 0 then none
  else
    let pts := zones.flatMap (fun z => z.polygon)
    let minLat := (jsMin (pts.map (·.lat))).toQ
    let maxLat := (jsMax (pts.map (·.lat))).toQ
    let minLng := (jsMin (pts.map (·.lng))).toQ
    let maxLng := (jsMax (pts.map (·.lng))).toQ
    let centerLat := (minLat + maxLat) / 2
    let centerLng := (minLng + maxLng) / 2
    let latDiff := maxLat - minLat
    let lngDiff := maxLng - minLng
    let diagonalDeg := sqrtFn (latDiff * latDiff + lngDiff * lngDiff)
    let radiusMeters := diagonalDeg / 2 * 111111
    some ⟨"combined-hazard", "Combined Hazard Zone",
      [⟨maxLat, minLng⟩, ⟨maxLat, maxLng⟩, ⟨minLat, maxLng⟩, ⟨minLat, minLng⟩],
      ⟨centerLat, centerLng⟩,
      max radiusMeters 500, .manual_polygon⟩

/-- The concurrently fetched and scored candidate evaluations of
`fetchRoute` (src/services/mapService.ts:143-162): zones intersecting
the direct route are merged; each of the 8 candidates is fetched through
the provider as a `start → waypoint → end` request (`Promise.all`
preserves candidate order, so the result list is in candidate order
regardless of completion order) and scored; failed fetches are dropped.
A `null` merged zone — only possible when no zone intersects — yields no
candidates, which makes `fetchRoute` fall through to the direct route
exactly as the JS does. -/
def candidateEvaluations (sqrtFn : ℚ → ℚ)
    (provider : List Coordinate → Option RouteData)
    (start end_ : Coordinate) (floodZones : List FloodZone)
    (directRoute : RouteData) : List RouteEvaluation :=
  match getCombinedHazardZone sqrtFn
      (floodZones.filter (fun z =>
        doesRouteIntersectFlood directRoute.coordinates z)) with
  | none => []
  | some metaZone =>
    ((generateDetourWaypoints sqrtFn start end_ metaZone).map (fun candidate =>
      (provider [start, candidate.waypoint, end_]).map (fun detourRoute =>
        RouteEvaluation.mk detourRoute
          (calculateRouteHazardScore detourRoute.coordinates floodZones)
          candidate.kind))).filterMap id

/-- The route evaluator/selector (src/services/mapService.ts:118-179,
`fetchRoute`).  `provider` models `fetchOSRMRoute` composed with
`transformRouteData` (`null` on any fetch or transform failure).  The
surrounding `try/catch` has nothing to catch in this embedding.  The
unreachable `none` branch under a nonempty evaluation list falls back to
the direct route (sorting a nonempty list is nonempty, as proved in the
theorems). -/
def fetchRoute (sqrtFn : ℚ → ℚ)
    (provider : List Coordinate → Option RouteData)
    (start end_ : Coordinate) (floodZones : List FloodZone)
    (avoidHazards : Bool) : Option RouteData :=
  match provider [start, end_] with
  | none => none
  | some directRoute =>
    if !avoidHazards then some directRoute
    else
      let directHazardScore :=
        calculateRouteHazardScore directRoute.coordinates floodZones
      if directHazardScore = 0 then some directRoute
      else
        let validEvaluations :=
          candidateEvaluations sqrtFn provider start end_ floodZones directRoute
        if 0 < validEvaluations.length then
          match (sortEvaluations validEvaluations).head? with
          | some best => some best.route
          | none => some directRoute
        else some directRoute

/-- The caller-visible blocked flag (src/App.tsx:290-292,
`calculateRoute`): set iff the returned route still intersects some
hazard zone. -/
def isBlockedFor (zones : List FloodZone) (routeData : RouteData) : Bool :=
  zones.any (fun z => doesRouteIntersectFlood routeData.coordinates z)

/-- A route with a nonzero hazard score triggers the blocked flag. -/
lemma isBlockedFor_of_score_pos (zones : List FloodZone) (r : RouteData)
    (h : calculateRouteHazardScore r.coordinates zones ≠ 0) :
    isBlockedFor zones r = true := by
  rw [calculateRouteHazardScore_eq_count] at h
  obtain ⟨p, hp, hpz⟩ : ∃ p ∈ r.coordinates,
      (zones.any (fun z => isPointInPolygon p z.polygon)) = true := by
    by_contra hno
    push_neg at hno
    apply h
    rw [List.length_eq_zero, List.filter_eq_nil_iff]
    intro p hp
    exact fun htrue => (hno p hp) htrue
  rw [List.any_eq_true] at hpz
  obtain ⟨z, hz, hpip⟩ := hpz
  rw [isBlockedFor, List.any_eq_true]
  refine ⟨z, hz, ?_⟩
  rw [doesRouteIntersectFlood_eq_any_inside, List.any_eq_true]
  exact ⟨p, hp, hpip⟩

/-- Every candidate evaluation carries the hazard score of its own
route. -/
lemma candidateEvaluations_score (sqrtFn : ℚ → ℚ)
    (provider : List Coordinate → Option RouteData)
    (start end_ : Coordinate) (floodZones : List FloodZone)
    (directRoute : RouteData) :
    ∀ e ∈ candidateEvaluations sqrtFn provider start end_ floodZones directRoute,
      e.hazardScore = calculateRouteHazardScore e.route.coordinates floodZones := by
  intro e he
  unfold candidateEvaluations at he
  split at he
  · exact absurd he (List.not_mem_nil e)
  · rw [List.mem_filterMap] at he
    obtain ⟨a, ha, hae⟩ := he
    rw [List.mem_map] at ha
    obtain ⟨c, hc, hca⟩ := ha
    rw [← hca] at hae
    cases hp : provider [start, c.waypoint, end_] with
    | none => rw [hp] at hae; simp at hae
    | some r =>
      rw [hp] at hae
      have hae2 : RouteEvaluation.mk r
          (calculateRouteHazardScore r.coordinates floodZones) c.kind = e := by
        simpa using hae
      rw [← hae2]

/-- C1 amended. For a direct route that crosses a hazard
(`hazardScore ≠ 0`), `fetchRoute` with `avoidHazards = true` returns:
the route of the lexicographically (score, then distance) minimal
candidate evaluation when at least one candidate fetch succeeded — its
hazard score may equal or even exceed the direct route's — and otherwise
the direct route, with the caller-visible blocked flag then true.  On a
returned candidate the blocked flag is true iff its score is nonzero. -/
theorem fetchRoute_detour_selection_spec (sqrtFn : ℚ → ℚ)
    (provider : List Coordinate → Option RouteData)
    (start end_ : Coordinate) (floodZones : List FloodZone)
    (directRoute : RouteData)
    (hdir : provider [start, end_] = some directRoute)
    (hscore : calculateRouteHazardScore directRoute.coordinates floodZones ≠ 0) :
    (candidateEvaluations sqrtFn provider start end_ floodZones directRoute = [] ∧
        fetchRoute sqrtFn provider start end_ floodZones true = some directRoute ∧
        isBlockedFor floodZones directRoute = true) ∨
      (∃ e, e ∈ candidateEvaluations sqrtFn provider start end_ floodZones directRoute ∧
        fetchRoute sqrtFn provider start end_ floodZones true = some e.route ∧
        (∀ b ∈ candidateEvaluations sqrtFn provider start end_ floodZones directRoute,
          e.hazardScore ≤ b.hazardScore ∧
            (e.hazardScore = b.hazardScore →
              e.route.totalDistance ≤ b.route.totalDistance)) ∧
        (e.hazardScore ≠ 0 → isBlockedFor floodZones e.route = true)) := by
  have hfr : fetchRoute sqrtFn provider start end_ floodZones true =
      (if 0 < (candidateEvaluations sqrtFn provider start end_ floodZones
          directRoute).length then
        match (sortEvaluations (candidateEvaluations sqrtFn provider start end_
            floodZones directRoute)).head? with
        | some best => some best.route
        | none => some directRoute
      else some directRoute) := by
    simp only [fetchRoute, hdir, Bool.not_true, Bool.false_eq_true, if_false]
    rw [if_neg hscore]
  by_cases hlen : 0 < (candidateEvaluations sqrtFn provider start end_ floodZones
      directRoute).length
  · right
    have hne : candidateEvaluations sqrtFn provider start end_ floodZones
        directRoute ≠ [] := by
      intro h0
      rw [h0] at hlen
      exact absurd hlen (by simp)
    obtain ⟨e, hhead, hmem, hmin⟩ := sortEvaluations_head_min _ hne
    refine ⟨e, hmem, ?_, ?_, ?_⟩
    · rw [hfr, if_pos hlen, hhead]
    · intro b hb
      have := (cmpEvals_le_iff e b).mp (hmin b hb)
      rcases this with h | ⟨h, hd⟩
      · exact ⟨h.le, fun heq => absurd heq (Nat.ne_of_lt h)⟩
      · exact ⟨h.le, fun _ => hd⟩
    · intro hez
      have hesc := candidateEvaluations_score sqrtFn provider start end_
        floodZones directRoute e hmem
      exact isBlockedFor_of_score_pos floodZones e.route (by rw [← hesc]; exact hez)
  · left
    have h0 : candidateEvaluations sqrtFn provider start end_ floodZones
        directRoute = [] := by
      rcases Nat.eq_zero_or_pos (candidateEvaluations sqrtFn provider start end_
          floodZones directRoute).length with h | h
      · exact List.length_eq_zero.mp h
      · exact absurd h hlen
    refine ⟨h0, ?_, isBlockedFor_of_score_pos floodZones directRoute hscore⟩
    rw [hfr, if_neg hlen]

lemma filterMap_id_map_some {α β : Type} (cs : List α) (F : α → Option β) (g : α → β)
    (h : ∀ c ∈ cs, F c = some (g c)) : (cs.map F).filterMap id = cs.map g := by
  induction cs with
  | nil => rfl
  | cons c cs ih =>
    simp only [List.map_cons, List.filterMap_cons, h c (List.mem_cons_self c cs), id_eq]
    rw [ih (fun c hc => h c (List.mem_cons_of_mem _ hc))]

/-- A square hazard zone straddling the direct path. -/
def cxZone : FloodZone :=
  ⟨"z1", "Test Zone", [⟨10, -10⟩, ⟨10, 10⟩, ⟨-10, 10⟩, ⟨-10, -10⟩], ⟨0, 0⟩, 500,
    .manual_polygon⟩

/-- A direct route whose middle sample point sits inside `cxZone`. -/
def cxDirect : RouteData := ⟨[⟨0, -20⟩, ⟨0, 0⟩, ⟨0, 20⟩], 4, 60⟩

/-- A candidate route — distinct from the direct one — whose middle
sample point also sits inside `cxZone`. -/
def cxDetour : RouteData := ⟨[⟨0, -20⟩, ⟨0, 5⟩, ⟨0, 20⟩], 5, 70⟩

/-- A provider answering the 2-waypoint direct request with `cxDirect`
and every 3-waypoint detour request with `cxDetour`. -/
def cxProvider : List Coordinate → Option RouteData := fun waypoints =>
  if waypoints.length = 2 then some cxDirect else some cxDetour

lemma cxPipA : isPointInPolygon ⟨0, -20⟩ cxZone.polygon = false := by
  norm_num [cxZone, isPointInPolygon, edgeFlip, List.range_succ]

lemma cxPipB : isPointInPolygon ⟨0, 0⟩ cxZone.polygon = true := by
  norm_num [cxZone, isPointInPolygon, edgeFlip, List.range_succ]

lemma cxPipC : isPointInPolygon ⟨0, 20⟩ cxZone.polygon = false := by
  norm_num [cxZone, isPointInPolygon, edgeFlip, List.range_succ]

lemma cxPipD : isPointInPolygon ⟨0, 5⟩ cxZone.polygon = true := by
  norm_num [cxZone, isPointInPolygon, edgeFlip, List.range_succ]

lemma cxScoreDirect : calculateRouteHazardScore cxDirect.coordinates [cxZone] = 1 := by
  rw [calculateRouteHazardScore_eq_count]
  simp [cxDirect, cxPipA, cxPipB, cxPipC]

lemma cxScoreDetour : calculateRouteHazardScore cxDetour.coordinates [cxZone] = 1 := by
  rw [calculateRouteHazardScore_eq_count]
  simp [cxDetour, cxPipA, cxPipD, cxPipC]

lemma cxIntersect : doesRouteIntersectFlood cxDirect.coordinates cxZone = true := by
  rw [doesRouteIntersectFlood_eq_any_inside]
  simp only [cxDirect, List.any_cons, List.any_nil, cxPipB]
  simp

/-- Counterexample to C1 as stated: with a provider whose every detour
candidate is the same distinct route scoring exactly like the direct
one, `fetchRoute(avoidHazards = true)` on a hazard-crossing direct route
returns a candidate route whose hazard score is NOT strictly below the
direct route's, and which is NOT the direct route either (so neither
disjunct of the claim holds). -/
theorem fetchRoute_no_safer_route_counterexample :
    doesRouteIntersectFlood cxDirect.coordinates cxZone = true ∧
      cxProvider [⟨0, -20⟩, ⟨0, 20⟩] = some cxDirect ∧
      fetchRoute (fun _ => 0) cxProvider ⟨0, -20⟩ ⟨0, 20⟩ [cxZone] true =
        some cxDetour ∧
      calculateRouteHazardScore cxDetour.coordinates [cxZone] =
        calculateRouteHazardScore cxDirect.coordinates [cxZone] ∧
      calculateRouteHazardScore cxDirect.coordinates [cxZone] = 1 ∧
      cxDetour ≠ cxDirect := by
  have hfil : [cxZone].filter
      (fun z => doesRouteIntersectFlood cxDirect.coordinates z) = [cxZone] := by
    simp [cxIntersect]
  obtain ⟨mz, hmz⟩ : ∃ mz, getCombinedHazardZone (fun _ => 0) [cxZone] = some mz := by
    unfold getCombinedHazardZone
    rw [if_neg (by simp)]
    exact ⟨_, rfl⟩
  have hevals : candidateEvaluations (fun _ => 0) cxProvider ⟨0, -20⟩ ⟨0, 20⟩
      [cxZone] cxDirect =
      (generateDetourWaypoints (fun _ => 0) ⟨0, -20⟩ ⟨0, 20⟩ mz).map
        (fun c => RouteEvaluation.mk cxDetour 1 c.kind) := by
    unfold candidateEvaluations
    rw [hfil, hmz]
    refine filterMap_id_map_some _ _ _ (fun c hc => ?_)
    have hp3 : cxProvider [⟨0, -20⟩, c.waypoint, ⟨0, 20⟩] = some cxDetour := rfl
    rw [hp3]
    show some (RouteEvaluation.mk cxDetour
      (calculateRouteHazardScore cxDetour.coordinates [cxZone]) c.kind) =
        some (RouteEvaluation.mk cxDetour 1 c.kind)
    rw [cxScoreDetour]
  have hlen8 : (generateDetourWaypoints (fun _ => 0) ⟨0, -20⟩ ⟨0, 20⟩ mz).length = 8 :=
    rfl
  have hlen : 0 < (candidateEvaluations (fun _ => 0) cxProvider ⟨0, -20⟩ ⟨0, 20⟩
      [cxZone] cxDirect).length := by
    rw [hevals, List.length_map, hlen8]
    norm_num
  have hne : candidateEvaluations (fun _ => 0) cxProvider ⟨0, -20⟩ ⟨0, 20⟩
      [cxZone] cxDirect ≠ [] := by
    intro h0
    rw [h0] at hlen
    exact absurd hlen (by simp)
  obtain ⟨e, hhead, hmem, -⟩ := sortEvaluations_head_min _ hne
  have heroute : e.route = cxDetour := by
    rw [hevals, List.mem_map] at hmem
    obtain ⟨c, -, hce⟩ := hmem
    rw [← hce]
  have hfetch : fetchRoute (fun _ => 0) cxProvider ⟨0, -20⟩ ⟨0, 20⟩ [cxZone] true =
      some cxDetour := by
    simp only [fetchRoute, show cxProvider [⟨0, -20⟩, ⟨0, 20⟩] = some cxDirect from rfl,
      Bool.not_true, Bool.false_eq_true, if_false]
    rw [if_neg (by rw [cxScoreDirect]; norm_num), if_pos hlen, hhead]
    show some e.route = some cxDetour
    rw [heroute]
  refine ⟨cxIntersect, rfl, hfetch, ?_, cxScoreDirect, ?_⟩
  · rw [cxScoreDetour, cxScoreDirect]
  · intro h
    have := congrArg RouteData.totalDistance h
    norm_num [cxDetour, cxDirect] at this

/-- Witness for the amended `fetchRoute` claim at the same concrete
provider and hazard configuration. -/
theorem fetchRoute_detour_selection_spec_witness :
    cxProvider [⟨0, -20⟩, ⟨0, 20⟩] = some cxDirect ∧
      ((candidateEvaluations (fun _ => 0) cxProvider ⟨0, -20⟩ ⟨0, 20⟩ [cxZone]
            cxDirect = [] ∧
          fetchRoute (fun _ => 0) cxProvider ⟨0, -20⟩ ⟨0, 20⟩ [cxZone] true =
            some cxDirect ∧
          isBlockedFor [cxZone] cxDirect = true) ∨
        (∃ e, e ∈ candidateEvaluations (fun _ => 0) cxProvider ⟨0, -20⟩ ⟨0, 20⟩
            [cxZone] cxDirect ∧
          fetchRoute (fun _ => 0) cxProvider ⟨0, -20⟩ ⟨0, 20⟩ [cxZone] true =
            some e.route ∧
          (∀ b ∈ candidateEvaluations (fun _ => 0) cxProvider ⟨0, -20⟩ ⟨0, 20⟩
              [cxZone] cxDirect,
            e.hazardScore ≤ b.hazardScore ∧
              (e.hazardScore = b.hazardScore →
                e.route.totalDistance ≤ b.route.totalDistance)) ∧
          (e.hazardScore ≠ 0 → isBlockedFor [cxZone] e.route = true))) := by
  refine ⟨rfl, fetchRoute_detour_selection_spec (fun _ => 0) cxProvider ⟨0, -20⟩
    ⟨0, 20⟩ [cxZone] cxDirect rfl ?_⟩
  rw [cxScoreDirect]
  norm_num

/-- The navigation-session state relevant to the reroute gate: the
`navStatus.rerouting` flag (src/unnamed/part_000, `NavigationStatus`)
plus a ghost counter of `calculateRoute` evaluations that have been
initiated but whose awaited `fetchRoute` has not yet settled. -/
structure RerouteGateState where
  rerouting : Bool
  inFlight : ℕ
deriving DecidableEq, Repr

/-- Events of one active navigation session, processed sequentially by
the single-threaded event loop.  `calculateRoute` has two initiators in
the source, only one of them gated by the `rerouting` flag:
  * `hazardCheck compromised` — one run of the dynamic-hazard effect
    (src/App.tsx:171-181); `compromised` folds the data conditions
    (route present, hazard set nonempty, some zone intersects the route);
    the effect acts only when `!navStatus.rerouting`, and the triggered
    `calculateRoute` sets `rerouting = true` before awaiting its
    evaluation (src/App.tsx:280-281);
  * `autoRecalc` — one run of the destination/hazard-set
    auto-recalculation effect (src/App.tsx:313-318), whose dependency
    list includes `floodZones`: with a destination set it invokes
    `calculateRoute` with no `rerouting` (nor `isNavigating`) guard, so
    it too sets the flag and puts one more evaluation in flight;
  * `evaluationSettled` — the awaited evaluation of one in-flight
    `calculateRoute` resolves, and that invocation clears the shared
    flag (src/App.tsx:287) regardless of other pending evaluations. -/
inductive RerouteEvent where
  | hazardCheck (compromised : Bool) : RerouteEvent
  | autoRecalc : RerouteEvent
  | evaluationSettled : RerouteEvent
deriving DecidableEq, Repr

/-- One step of the reroute gate. -/
def rerouteStep (s : RerouteGateState) (e : RerouteEvent) : RerouteGateState :=
  match e with
  | .hazardCheck compromised =>
    if compromised && !s.rerouting then ⟨true, s.inFlight + 1⟩ else s
  | .autoRecalc => ⟨true, s.inFlight + 1⟩
  | .evaluationSettled => ⟨false, s.inFlight - 1⟩

/-- The monitor-only gate invariant: at most one evaluation in flight,
and the flag mirrors it.  Preserved by every event except the ungated
`autoRecalc` initiator. -/
def rerouteInv (s : RerouteGateState) : Prop :=
  s.inFlight ≤ 1 ∧ s.rerouting = decide (s.inFlight = 1)

lemma rerouteStep_preserves_inv (s : RerouteGateState) (e : RerouteEvent)
    (hne : e ≠ RerouteEvent.autoRecalc) (h : rerouteInv s) :
    rerouteInv (rerouteStep s e) := by
  obtain ⟨hle, hflag⟩ := h
  cases e with
  | hazardCheck c =>
    by_cases hg : (c && !s.rerouting) = true
    · have hnr : s.rerouting = false := by
        rcases Bool.and_eq_true _ _ |>.mp hg with ⟨-, hnot⟩
        rwa [Bool.not_eq_true'] at hnot
      have hzero : s.inFlight = 0 := by
        rw [hnr] at hflag
        have := hflag.symm
        rw [decide_eq_false_iff_not] at this
        omega
      simp only [rerouteStep, hg, if_true]
      constructor
      · simp [hzero]
      · simp [hzero]
    · simp only [rerouteStep, hg, if_false]
      exact ⟨hle, hflag⟩
  | autoRecalc => exact absurd rfl hne
  | evaluationSettled =>
    constructor
    · simp only [rerouteStep]
      omega
    · simp only [rerouteStep]
      have : s.inFlight - 1 = 0 := by omega
      simp [this]

lemma rerouteInv_trace (events : List RerouteEvent) :
    ∀ (s : RerouteGateState), (∀ ev ∈ events, ev ≠ RerouteEvent.autoRecalc) →
      rerouteInv s → rerouteInv (events.foldl rerouteStep s) := by
  induction events with
  | nil => exact fun s _ h => h
  | cons e es ih =>
    intro s hmon h
    rw [List.foldl_cons]
    exact ih _ (fun ev hev => hmon ev (List.mem_cons_of_mem _ hev))
      (rerouteStep_preserves_inv s e (hmon e (List.mem_cons_self e es)) h)

/-- Counterexample to C5 as stated: a single hazard-set change during an
active session runs, in the same commit, both the gated dynamic-hazard
effect (one reroute evaluation) and the ungated auto-recalculation
effect of src/App.tsx:313-318 (a second evaluation, no `rerouting`
check) — two reroute evaluations are in flight at once; and whichever
settles first clears the shared flag while the other evaluation is
still pending, so the flag is not cleared only by the settlement of
"that" reroute. -/
theorem reroute_two_evaluations_in_flight :
    [RerouteEvent.hazardCheck true, RerouteEvent.autoRecalc].foldl
        rerouteStep ⟨false, 0⟩ = ⟨true, 2⟩ ∧
      ¬ (([RerouteEvent.hazardCheck true, RerouteEvent.autoRecalc].foldl
        rerouteStep ⟨false, 0⟩).inFlight ≤ 1) ∧
      [RerouteEvent.hazardCheck true, RerouteEvent.autoRecalc,
        RerouteEvent.evaluationSettled].foldl rerouteStep ⟨false, 0⟩ =
        ⟨false, 1⟩ := by
  decide

/-- C5 amended. The `rerouting` flag gates only the live hazard
monitor: a compromise detection while the flag is true triggers no new
evaluation from the monitor, and along any session trace containing
only monitor runs and settlements at most one evaluation is ever in
flight.  The flag is set whenever an evaluation is initiated — by the
gated monitor or by the ungated auto-recalculation effect, which starts
a further evaluation even while one is in flight — and the only event
that clears the flag is the settlement of whichever in-flight
evaluation finishes first. -/
theorem reroute_gate_monitor_spec (events : List RerouteEvent)
    (s : RerouteGateState) (c : Bool) (e : RerouteEvent)
    (hmon : ∀ ev ∈ events, ev ≠ RerouteEvent.autoRecalc) :
    (events.foldl rerouteStep ⟨false, 0⟩).inFlight ≤ 1 ∧
      (s.rerouting = true → rerouteStep s (.hazardCheck c) = s) ∧
      (s.rerouting = false → c = true →
        rerouteStep s (.hazardCheck c) = ⟨true, s.inFlight + 1⟩) ∧
      rerouteStep s .autoRecalc = ⟨true, s.inFlight + 1⟩ ∧
      (s.rerouting = true → (rerouteStep s e).rerouting = false →
        e = .evaluationSettled) := by
  refine ⟨?_, ?_, ?_, rfl, ?_⟩
  · exact (rerouteInv_trace events ⟨false, 0⟩ hmon ⟨by simp, by simp⟩).1
  · intro hr
    simp [rerouteStep, hr]
  · intro hr hc
    simp [rerouteStep, hr, hc]
  · intro hr hcl
    cases e with
    | hazardCheck c2 =>
      exfalso
      simp only [rerouteStep, hr, Bool.not_true, Bool.and_false] at hcl
      rw [if_neg Bool.false_ne_true] at hcl
      rw [hr] at hcl
      exact absurd hcl (by simp)
    | autoRecalc =>
      exfalso
      simp only [rerouteStep] at hcl
      exact absurd hcl (by simp)
    | evaluationSettled => rfl

/-- Witness for the amended reroute gate claim: two overlapping
compromise events followed by the settlement (a monitor-only trace),
plus the ungated initiator acting on an already-rerouting state. -/
theorem reroute_gate_monitor_spec_witness :
    ([RerouteEvent.hazardCheck true, RerouteEvent.hazardCheck true,
        RerouteEvent.evaluationSettled].foldl rerouteStep ⟨false, 0⟩).inFlight ≤ 1 ∧
      rerouteStep ⟨true, 1⟩ (.hazardCheck true) = ⟨true, 1⟩ ∧
      rerouteStep ⟨true, 1⟩ .autoRecalc = ⟨true, 2⟩ := by
  obtain ⟨h1, h2, -, h4, -⟩ := reroute_gate_monitor_spec
    [RerouteEvent.hazardCheck true, RerouteEvent.hazardCheck true,
      RerouteEvent.evaluationSettled] ⟨true, 1⟩ true .evaluationSettled
    (by decide)
  exact ⟨h1, h2 rfl, h4⟩
